import Mathlib

/-! Screenshot Note: the collection manager.

A shallow embedding of the collection logic of `src/renderer.js` (the in-memory
list of screenshot records, its filtered view, removal, description edits and
JSON import) and of the two `/api/screenshots` handlers of `src/server.js`.

Conventions of the embedding.

* A JavaScript string is a Lean `String`, a sequence of Unicode scalar values;
  `===` on strings is equality.
* A record id is a finite JavaScript number, embedded as a rational; `===` and
  `!==` on ids are equality and disequality.
* The runtime built-ins that the repository does not define
  (`String.prototype.toLowerCase`, `JSON.stringify`, `JSON.parse`, the functions of
  `path`, and `+` on numbers, which rounds to double precision) are parameters
  of the functions that call them.
* A route handler is a function of `req.body` and of the files. The middleware
  mounted in front of the routes belongs to libraries: what it makes of a
  request is an input of the endpoint, and where an endpoint is evaluated on a
  concrete request the library behaviour that is assumed is written out in a
  definition of its own.
* The module-level variables `screenshots` and `filteredScreenshots`, the
  pending auto-save timer and the requests sent by `saveScreenshots` are fields
  of an explicit `State`.
-/

namespace ScreenshotNote

/-! ## Strings -/

/-- The characters removed by `String.prototype.trim`: the ECMAScript
`WhiteSpace` and `LineTerminator` code points. -/
def isJsWhiteSpace (c : Char) : Bool :=
  let n := c.toNat
  n = 0x09 || n = 0x0A || n = 0x0B || n = 0x0C || n = 0x0D || n = 0x20 ||
  n = 0xA0 || n = 0x1680 || (0x2000 ≤ n && n ≤ 0x200A) || n = 0x2028 ||
  n = 0x2029 || n = 0x202F || n = 0x205F || n = 0x3000 || n = 0xFEFF

/-- Strip leading white space from a list of characters. -/
def trimStart (cs : List Char) : List Char :=
  cs.dropWhile isJsWhiteSpace

/-- The built-in `String.prototype.trim`: white space is stripped from both ends. -/
def trim (s : String) : String :=
  ⟨(trimStart (trimStart s.data).reverse).reverse⟩

/-- Whether `t` occurs in `cs` starting at its first character or later. -/
def includesChars (cs t : List Char) : Bool :=
  match cs with
  | [] => t.isEmpty
  | c :: rest => t.isPrefixOf (c :: rest) || includesChars rest t

/-- The built-in `String.prototype.includes`: `t` is a contiguous substring of `s`. -/
def includes (s t : String) : Bool :=
  includesChars s.data t.data

/-- Lower-casing of the ASCII letters only. It agrees with
`String.prototype.toLowerCase` on ASCII text and is used to evaluate the
embedding on concrete ASCII inputs. -/
def asciiToLowerCase (s : String) : String :=
  ⟨s.data.map fun c =>
    if 65 ≤ c.toNat ∧ c.toNat ≤ 90 then Char.ofNat (c.toNat + 32) else c⟩

/-- A string is blank when it is empty or all of its characters are white space. -/
def isBlank (s : String) : Bool :=
  s.data.all isJsWhiteSpace

/-! ## Data model -/

/-- A screenshot record, the object literal built at `renderer.js` lines 127-133. -/
structure Screenshot where
  id : Rat
  filename : String
  description : String
  date : String
  path : String
  deriving DecidableEq, Repr

/-- The renderer's module-level state: the two arrays of lines 5-6, the due time
of the pending `window.autoSaveTimeout` timer (`none` when no timer is pending)
and the bodies of the POST requests issued by `saveScreenshots`, oldest first. -/
structure State where
  screenshots : List Screenshot
  filteredScreenshots : List Screenshot
  autoSaveTimeout : Option Nat
  saved : List (List Screenshot)
  deriving DecidableEq, Repr

/-! ## Filtered view (`renderer.js` lines 168-170 and 257-270) -/

/-- The list `imagesToShow` that `renderGallery` renders (line 170). -/
def renderGallery (st : State) : List Screenshot :=
  if st.filteredScreenshots.length > 0 then st.filteredScreenshots else st.screenshots

/-- The callback of the `filter` call at lines 263-266. -/
def matchesSearch (toLowerCase : String → String) (searchTerm : String)
    (screenshot : Screenshot) : Bool :=
  includes (toLowerCase screenshot.description) searchTerm ||
  includes (toLowerCase screenshot.filename) searchTerm

/-- The function `filterImages` (lines 257-270); `value` is the content of the search
box. The final `renderGallery()` call reads the state returned here. -/
def filterImages (toLowerCase : String → String) (value : String) (st : State) : State :=
  let searchTerm := trim (toLowerCase value)
  if searchTerm = "" then
    { st with filteredScreenshots := [] }
  else
    { st with filteredScreenshots := st.screenshots.filter (matchesSearch toLowerCase searchTerm) }

/-- The list shown on screen once `filterImages` has run with `value` in the search box. -/
def filteredView (toLowerCase : String → String) (value : String) (st : State) :
    List Screenshot :=
  renderGallery (filterImages toLowerCase value st)

/-- The spec's criterion "the record's `description` or `filename` contains `t`
case-insensitively": both sides are lower-cased and `t` is taken as typed. -/
def containsCaseInsensitively (toLowerCase : String → String) (t : String)
    (screenshot : Screenshot) : Bool :=
  includes (toLowerCase screenshot.description) (toLowerCase t) ||
  includes (toLowerCase screenshot.filename) (toLowerCase t)

/-! ## Persistence requests (`renderer.js` lines 277-300) -/

/-- The function `saveScreenshots` (lines 277-294): a POST of the whole current
collection is issued; the request body is appended to `saved`. -/
def saveScreenshots (st : State) : State :=
  { st with saved := st.saved ++ [st.screenshots] }

/-- The function `autoSave` (lines 296-300), called at time `now` (milliseconds): the
pending timer is cleared and a new one is set to fire `saveScreenshots` 1000 ms later. -/
def autoSave (now : Nat) (st : State) : State :=
  { st with autoSaveTimeout := some (now + 1000) }

/-! ## Removal, description edits, clearing (`renderer.js` lines 220-243, 302-311) -/

/-- The function `removeScreenshot` (lines 235-243); `confirmed` is the answer given
to the `confirm` dialog. -/
def removeScreenshot (confirmed : Bool) (id : Rat) (st : State) : State :=
  if confirmed then
    saveScreenshots { st with screenshots := st.screenshots.filter (fun s => s.id ≠ id) }
  else
    st

/-- The assignment `screenshot.description = description` (line 223) seen from the
`screenshots` array: the object returned by `find`, which is the first record
whose id is `id`, gets the new description. -/
def setDescription (id : Rat) (description : String) : List Screenshot → List Screenshot
  | [] => []
  | s :: rest =>
    if s.id = id then { s with description := description } :: rest
    else s :: setDescription id description rest

/-- The function `updateDescription` (lines 220-226), called at time `now`. The state
holds record values: the write is followed through the `screenshots` array, and
`filteredScreenshots`, which is not assigned here, is left as it is. -/
def updateDescription (now : Nat) (id : Rat) (description : String) (st : State) : State :=
  match st.screenshots.find? (fun s => s.id = id) with
  | some _ => autoSave now { st with screenshots := setDescription id description st.screenshots }
  | none => st

/-- The function `clearAll` (lines 302-311); `confirmed` is the answer given to the
`confirm` dialog. -/
def clearAll (confirmed : Bool) (st : State) : State :=
  if confirmed then
    saveScreenshots { st with screenshots := [], filteredScreenshots := [] }
  else
    st

/-! ## Import (`renderer.js` lines 345-379) -/

/-- An element of the array read from an import file. A property is `none` when
the object does not have it; the properties that are present hold strings, as
in the export format. The imported `id` is carried only to show that it is
never read. -/
structure Candidate where
  id : Option Rat
  filename : Option String
  description : Option String
  date : Option String
  path : Option String
  deriving DecidableEq, Repr

/-- JavaScript truthiness of a property that is missing or holds a string:
true exactly for a non-empty string. -/
def truthy : Option String → Bool
  | some s => decide (s ≠ "")
  | none => false

/-- The expression `value || fallback` for a property that is missing or holds a
string. -/
def orElse (value : Option String) (fallback : String) : String :=
  match value with
  | some s => if s ≠ "" then s else fallback
  | none => fallback

/-- The values that the loop body of `importAll` reads from the clock and from the
random generator while it handles the entry at position `i` of
`validScreenshots`, and the operator `+` on JavaScript numbers: `add x y` is the
double-precision sum of `x` and `y`, which is rounded and in general not their
exact sum. -/
structure ImportReadings where
  dateNow : Nat → Rat
  random : Nat → Rat
  toISOString : Nat → String
  add : Rat → Rat → Rat

/-- The object literal `newScreenshot` (lines 360-366) for the entry at position `i`,
built when `addedCount` records have been added so far. The loop runs on the
entries that passed the filter of lines 346-348, whose `filename` and `path` are
present. The id `Date.now() + Math.random() + addedCount` is the double-precision
sum, taken from left to right. -/
def newScreenshot (env : ImportReadings) (i addedCount : Nat) (item : Candidate) : Screenshot :=
  { id := env.add (env.add (env.dateNow i) (env.random i)) addedCount
    filename := item.filename.getD ""
    description := orElse item.description ""
    date := orElse item.date (env.toISOString i)
    path := item.path.getD "" }

/-- The `forEach` loop of lines 357-370 from position `i` on; the result is the
`screenshots` array and `addedCount` after the last entry. -/
def importLoop (env : ImportReadings) :
    Nat → List Candidate → List Screenshot → Nat → List Screenshot × Nat
  | _, [], screenshots, addedCount => (screenshots, addedCount)
  | i, item :: rest, screenshots, addedCount =>
    if screenshots.any (fun s => decide (some s.filename = item.filename)) then
      importLoop env (i + 1) rest screenshots addedCount
    else
      importLoop env (i + 1) rest (newScreenshot env i addedCount item :: screenshots)
        (addedCount + 1)

/-- The filter callback of lines 346-348. -/
def isValidEntry (item : Candidate) : Bool :=
  truthy item.filename && truthy item.path

/-- What `importAll` reports through `showStatus`. -/
inductive ImportStatus where
  | noValidEntries
  | imported (addedCount : Nat)
  | allExist
  deriving DecidableEq, Repr

/-- The branch `if (Array.isArray(data))` of `importAll` (lines 345-379), where `data`
is the array read from the chosen file. -/
def importAll (env : ImportReadings) (data : List Candidate) (st : State) :
    State × ImportStatus :=
  let validScreenshots := data.filter isValidEntry
  if validScreenshots.length = 0 then
    (st, .noValidEntries)
  else
    let result := importLoop env 0 validScreenshots st.screenshots 0
    if result.2 > 0 then
      (saveScreenshots { st with screenshots := result.1 }, .imported result.2)
    else
      ({ st with screenshots := result.1 }, .allExist)

/-- An import entry without its `id` property. -/
def Candidate.withoutId (c : Candidate) : Candidate :=
  { c with id := none }

/-- The number that the spec calls K, read on all candidates: how many distinct
filenames occur among them that no record of the collection has. -/
def newFilenameCount (data : List Candidate) (screenshots : List Screenshot) : Nat :=
  ((data.filterMap (fun c => c.filename)).toFinset \
    (screenshots.map (fun s => s.filename)).toFinset).card

/-! ## Ingestion (`renderer.js` lines 89-143 and 561-583) -/

/-- The properties of a dropped or selected file that the renderer reads. -/
structure File where
  name : String
  path : String
  type : String
  size : Nat
  deriving DecidableEq, Repr

/-- What one call of `addScreenshotFromFile` reads from its environment: the clock at
line 119, the error raised by `fs.copyFileSync` in the `copy-image-to-assets`
handler (`none` when the copy succeeds), the clock and random generator at
lines 128 and 131, and the operator `+` on JavaScript numbers: `add x y` is the
double-precision sum of `x` and `y`, which is rounded and in general not their
exact sum. -/
structure AddReadings where
  nameTime : String
  copyError : Option String
  dateNow : Rat
  random : Rat
  recordTime : String
  add : Rat → Rat → Rat

/-- The reply of the `copy-image-to-assets` handler. -/
structure CopyResult where
  success : Bool
  path : String

/-- The handler `copy-image-to-assets` (`main.js` lines 156-172): the reply on success,
the rethrown error otherwise. -/
def copyImageToAssets (copyError : Option String) (targetName : String) :
    Except String CopyResult :=
  match copyError with
  | none => .ok { success := true, path := "assets/screenshots/" ++ targetName }
  | some message => .error ("Failed to copy image: " ++ message)

/-- The expression `replace(/[:.]/g, '-')` of line 119. -/
def sanitizeTimestamp (iso : String) : String :=
  ⟨iso.data.map fun c => if c = ':' ∨ c = '.' then '-' else c⟩

/-- The expression `name.split('.').pop()` of line 120: what follows the last dot, or
the whole name when it has no dot. -/
def extensionOf (name : String) : String :=
  ⟨(name.data.reverse.takeWhile (fun c => c ≠ '.')).reverse⟩

/-- The function `addScreenshotFromFile` (lines 116-143). An error is the exception it
rethrows at line 141. -/
def addScreenshotFromFile (env : AddReadings) (file : File) (st : State) :
    Except String State :=
  let timestamp := sanitizeTimestamp env.nameTime
  let extension := extensionOf file.name
  let filename := "screenshot-" ++ timestamp ++ "." ++ extension
  match copyImageToAssets env.copyError filename with
  | .error e => .error e
  | .ok result =>
    if result.success then
      let screenshot : Screenshot :=
        { id := env.add env.dateNow env.random
          filename := filename
          description := ""
          date := env.recordTime
          path := result.path }
      .ok { st with screenshots := screenshot :: st.screenshots }
    else
      .ok st

/-- The `for` loops of lines 103-105 and 567-573, from position `i` on: the files are
added one after the other and the first exception leaves the loop; it is
caught by the enclosing `catch`, which only reports it. -/
def addEach (env : Nat → AddReadings) : Nat → List File → State → State
  | _, [], st => st
  | i, file :: rest, st =>
    match addScreenshotFromFile (env i) file st with
    | .ok st' => addEach env (i + 1) rest st'
    | .error _ => st

/-- The filter callback of lines 90-92. -/
def isImageFile (file : File) : Bool :=
  "image/".data.isPrefixOf file.type.data && decide (file.size ≤ 10 * 1024 * 1024)

/-- The function `processFiles` (lines 89-114). -/
def processFiles (env : Nat → AddReadings) (files : List File) (st : State) : State :=
  let imageFiles := files.filter isImageFile
  if imageFiles.length = 0 then st
  else addEach env 0 imageFiles st

/-- The expression `filePath.split(/[/\\]/).pop()` of line 570: what follows the last
slash or backslash. -/
def baseName (filePath : String) : String :=
  ⟨(filePath.data.reverse.takeWhile (fun c => c ≠ '/' ∧ c ≠ '\\')).reverse⟩

/-- The function `selectAndUploadImages` (lines 561-583); `canceled` and `filePaths` are
the reply of the file dialog. The object built at lines 568-571 has only
`path` and `name`; `type` and `size`, which `addScreenshotFromFile` does not
read, are set to the empty string and zero. -/
def selectAndUploadImages (env : Nat → AddReadings) (canceled : Bool)
    (filePaths : List String) (st : State) : State :=
  if !canceled && filePaths.length > 0 then
    addEach env 0 (filePaths.map fun filePath =>
      { path := filePath, name := baseName filePath, type := "", size := 0 }) st
  else
    st

/-! ## Server: the `/api/screenshots` handlers (`server.js` lines 80-135) -/

/-- A JSON value: what `JSON.parse` returns and what `express.json()` puts in
`req.body`. An object is the list of its properties in insertion order. -/
inductive Json where
  | null
  | bool (b : Bool)
  | num (n : Rat)
  | str (s : String)
  | arr (items : List Json)
  | obj (fields : List (String × Json))

/-- The built-in `Array.isArray`. -/
def Json.isArray : Json → Bool
  | .arr _ => true
  | _ => false

/-- The length of a string in UTF-16 code units. -/
def utf16Length (s : String) : Nat :=
  (s.data.map fun c => if c.toNat < 0x10000 then 1 else 2).sum

/-- The property access `value.length` on a JSON value: a `TypeError` on `null`, the
number of elements of an array, the number of code units of a string, the
property called "length" of an object, and `undefined` (`none`) on a number or a
boolean. -/
def Json.lengthProperty : Json → Except String (Option Json)
  | .null => .error "Cannot read properties of null (reading \x27length\x27)"
  | .arr items => .ok (some (.num items.length))
  | .str s => .ok (some (.num (utf16Length s)))
  | .obj fields => .ok (fields.lookup "length")
  | .bool _ => .ok none
  | .num _ => .ok none

/-- A property of an object literal as `res.json` serializes it: a property whose
value is `undefined` is left out. -/
def optionalField (key : String) : Option Json → List (String × Json)
  | some value => [(key, value)]
  | none => []

/-- The record as the JSON object that `JSON.stringify` and `JSON.parse` exchange, its
properties in the order of the object literal. -/
def Screenshot.toJson (s : Screenshot) : Json :=
  .obj [("id", .num s.id), ("filename", .str s.filename), ("description", .str s.description),
    ("date", .str s.date), ("path", .str s.path)]

/-- The files of the server, by path relative to `__dirname`: `none` for a file that
does not exist, the text of the file otherwise. The store is held in memory:
reading an existing file and writing a file succeed, so that a handler reaches
its `catch` block only when `JSON.parse` or a property access throws. -/
abbrev FileSys := String → Option String

/-- The path `path.join(DATA_DIR, "screenshots.json")`. -/
def screenshotsFile : String := "data/screenshots.json"

/-- The call `fs.writeFileSync(file, text, 'utf8')`: the content of `file` is replaced. -/
def writeFileSync (fs : FileSys) (file text : String) : FileSys :=
  fun p => if p = file then some text else fs p

/-- An HTTP response: the status code and the JSON body given to `res.json`. -/
structure Response where
  status : Nat
  body : Json

/-- The handler of `GET /api/screenshots` (lines 80-106); `parse` is `JSON.parse`, which
returns the parsed value or the message of the `SyntaxError` it throws. -/
def getScreenshots (parse : String → Except String Json) (fs : FileSys) : Response :=
  match fs screenshotsFile with
  | some data =>
    match parse data with
    | .error message =>
      ⟨500, .obj [("error", .str "Failed to load screenshots"), ("details", .str message)]⟩
    | .ok screenshots =>
      match screenshots.lengthProperty with
      | .error message =>
        ⟨500, .obj [("error", .str "Failed to load screenshots"), ("details", .str message)]⟩
      | .ok count =>
        ⟨200, .obj ([("success", .bool true), ("data", screenshots)]
          ++ optionalField "count" count)⟩
  | none =>
    ⟨200, .obj [("success", .bool true), ("data", .arr []), ("count", .num 0)]⟩

/-- The route handler of `POST /api/screenshots` (lines 109-135), which runs once the
body parsers have stored `req.body`; `stringify value` is
`JSON.stringify(value, null, 2)` and `body` is `req.body`. The result is the
response and the files after the request. The whole endpoint, with the
middleware in front of the route, is `postScreenshotsEndpoint`. -/
def postScreenshots (stringify : Json → String) (body : Json) (fs : FileSys) :
    Response × FileSys :=
  match body with
  | .arr items =>
    (⟨200, .obj [("success", .bool true),
        ("message", .str ("Saved " ++ toString items.length ++ " screenshots")),
        ("count", .num items.length)]⟩,
     writeFileSync fs screenshotsFile (stringify body))
  | _ => (⟨400, .obj [("error", .str "Screenshots data must be an array")]⟩, fs)

/-- The text `JSON.stringify([sampleA], null, 2)`. -/
def sampleText : String :=
  "[\n  \x7b\n    \"id\": 1,\n    \"filename\": \"a.png\",\n    \"description\": \"cat\"," ++
  "\n    \"date\": \"2025-01-01T00:00:00.000Z\"," ++
  "\n    \"path\": \"assets/screenshots/a.png\"\n  \x7d\n]"

/-- A stand-in for the built-in `JSON.parse` that is exact on five texts: the empty
array, the empty object, `null`, the text `sampleText`, and "\x7boops", which
is not JSON and raises a `SyntaxError`; every other text is treated as the
last one. -/
def sampleParse (text : String) : Except String Json :=
  if text = "[]" then .ok (.arr [])
  else if text = "\x7b\x7d" then .ok (.obj [])
  else if text = "null" then .ok .null
  else if text = sampleText then .ok (.arr [Screenshot.toJson
    ⟨1, "a.png", "cat", "2025-01-01T00:00:00.000Z", "assets/screenshots/a.png"⟩])
  else .error "Expected property name or \x27\x7d\x27 in JSON at position 1"

/-- A stand-in for the built-in `JSON.stringify(value, null, 2)` that is exact on the
empty array and on the array `[sampleA]`, the values it is applied to here;
every other value is given the text of `[sampleA]`. -/
def sampleStringify : Json → String
  | .arr [] => "[]"
  | _ => sampleText

/-- Server files in which `data/screenshots.json` holds `text` and nothing else exists. -/
def filesWith (text : String) : FileSys :=
  fun p => if p = screenshotsFile then some text else none

/-! ## Sample data -/

/-- A record described as "cat". -/
def sampleA : Screenshot :=
  ⟨1, "a.png", "cat", "2025-01-01T00:00:00.000Z", "assets/screenshots/a.png"⟩

/-- A record described as "a cat". -/
def sampleB : Screenshot :=
  ⟨2, "b.png", "a cat", "2025-01-02T00:00:00.000Z", "assets/screenshots/b.png"⟩

/-- A state holding the two sample records and no active filter. -/
def sampleState : State :=
  ⟨[sampleA, sampleB], [], none, []⟩

/-- Clock and random readings used to evaluate `importAll`: every entry is handled at
2025-08-24T00:00:00.000Z and every random draw is 1/4. The sums of these values
and of small counts are doubles, so the exact sum stands for `+` here. -/
def sampleReadings : ImportReadings :=
  { dateNow := fun _ => 1755993600000
    random := fun _ => 1 / 4
    toISOString := fun _ => "2025-08-24T00:00:00.000Z"
    add := fun x y => x + y }

/-- An import entry that has a new filename and no `path`. -/
def entryWithoutPath : Candidate :=
  ⟨none, some "new.png", some "note", some "2025-03-03T00:00:00.000Z", none⟩

/-- An import entry whose filename the sample record `sampleA` already has. -/
def entryWithKnownName : Candidate :=
  ⟨none, some "a.png", none, none, some "assets/screenshots/a.png"⟩

/-- An import entry whose `date` is present and empty. -/
def entryWithEmptyDate : Candidate :=
  ⟨some 7, some "new.png", some "note", some "", some "assets/screenshots/new.png"⟩

/-- An import entry with a second new filename and a date. -/
def entrySecond : Candidate :=
  ⟨some 9, some "second.png", none, some "2025-03-03T00:00:00.000Z",
    some "assets/screenshots/second.png"⟩

/-- A dropped PNG file of 2048 bytes. -/
def sampleFile : File :=
  { name := "shot.png", path := "/home/user/shot.png", type := "image/png", size := 2048 }

/-- Readings for `addScreenshotFromFile`: the copy succeeds and every clock reading is
2025-08-24T00:00:00.000Z. The sum of the two numbers is a double, so the exact
sum stands for `+` here. -/
def sampleAddReadings : AddReadings :=
  { nameTime := "2025-08-24T00:00:00.000Z"
    copyError := none
    dateNow := 1755993600000
    random := 1 / 4
    recordTime := "2025-08-24T00:00:00.000Z"
    add := fun x y => x + y }

/-- A state with an empty collection, no filter, no pending timer and no save. -/
def emptyState : State :=
  ⟨[], [], none, []⟩

/-! ## Server: the `/api/data/:filename` handlers (`server.js` lines 171-253) -/

/-- A call of the `fs` module with the path it is made on: the four synchronous calls
that the handlers make, and `stat` and `createReadStream`, which the static
middleware makes. -/
inductive FsAccess where
  | existsSync (path : String)
  | readFileSync (path : String)
  | statSync (path : String)
  | writeFileSync (path : String)
  | stat (path : String)
  | createReadStream (path : String)
  deriving DecidableEq, Repr

/-- The built-ins and the helper that the `/api/data/:filename` handlers call and that
are kept as parameters: `JSON.parse`, `JSON.stringify(value, null, 2)`, the three
path computations `path.join(DATA_DIR, filename)`, `path.join(__dirname, filename)`
and `path.resolve(filename)`, and `formatFileSize` (lines 59-65), which computes
in floating point. -/
structure DataEnv where
  parse : String → Except String Json
  stringify : Json → String
  joinData : String → String
  joinRoot : String → String
  resolve : String → String
  formatFileSize : Nat → String

/-- The test of lines 176 and 230: the filename contains "..", a slash or a
backslash. -/
def isTraversal (filename : String) : Bool :=
  includes filename ".." || includes filename "/" || includes filename "\\"

/-- The loop of lines 189-194: the first of the paths that exists, and the `existsSync`
calls made to find it. -/
def firstExisting (fs : FileSys) : List String → Option String × List FsAccess
  | [] => (none, [])
  | tryPath :: rest =>
    if (fs tryPath).isSome then (some tryPath, [.existsSync tryPath])
    else
      let found := firstExisting fs rest
      (found.1, .existsSync tryPath :: found.2)

/-- The route handler of `GET /api/data/:filename` (lines 171-221): the response and the
`fs` calls that the handler makes, in order. The whole endpoint, with the static
middleware in front of the route, is `getDataEndpoint`. -/
def getData (env : DataEnv) (filename : String) (fs : FileSys) : Response × List FsAccess :=
  if isTraversal filename then
    (⟨400, .obj [("error", .str "Invalid filename")]⟩, [])
  else
    let possiblePaths := [env.joinData filename, env.joinRoot filename, env.resolve filename]
    let found := firstExisting fs possiblePaths
    match found.1 with
    | none =>
      (⟨404, .obj [("error", .str ("JSON file not found: " ++ filename)),
          ("searchedPaths", .arr (possiblePaths.map Json.str))]⟩, found.2)
    | some filePath =>
      if filePath = "" then
        (⟨404, .obj [("error", .str ("JSON file not found: " ++ filename)),
            ("searchedPaths", .arr (possiblePaths.map Json.str))]⟩, found.2)
      else
        let data := (fs filePath).getD ""
        match env.parse data with
        | .error message =>
          (⟨500, .obj [("error", .str "Failed to load JSON data"), ("details", .str message)]⟩,
            found.2 ++ [.readFileSync filePath])
        | .ok jsonData =>
          (⟨200, .obj [("success", .bool true), ("data", jsonData), ("filename", .str filename),
              ("path", .str filePath),
              ("size", .str (env.formatFileSize data.utf8ByteSize))]⟩,
            found.2 ++ [.readFileSync filePath, .statSync filePath])

/-- The route handler of `POST /api/data/:filename` (lines 224-253), which runs once the
body parsers have stored `req.body`; `data` is `req.body`. The result is the
response, the files after the request and the `fs` calls that the handler makes.
The whole endpoint is `postDataEndpoint`. -/
def postData (env : DataEnv) (filename : String) (data : Json) (fs : FileSys) :
    Response × FileSys × List FsAccess :=
  if isTraversal filename then
    (⟨400, .obj [("error", .str "Invalid filename")]⟩, fs, [])
  else
    let filePath := env.joinData filename
    let jsonString := env.stringify data
    (⟨200, .obj [("success", .bool true), ("message", .str ("Data saved to " ++ filename)),
        ("path", .str filePath),
        ("size", .str (env.formatFileSize (utf16Length jsonString)))]⟩,
      writeFileSync fs filePath jsonString, [.writeFileSync filePath])

/-- A stand-in for the path built-ins and `formatFileSize`, used to evaluate the
handlers: paths are joined with a slash and file sizes are printed in bytes. -/
def sampleDataEnv : DataEnv :=
  { parse := sampleParse
    stringify := sampleStringify
    joinData := fun filename => "data/" ++ filename
    joinRoot := fun filename => filename
    resolve := fun filename => "/srv/app/" ++ filename
    formatFileSize := fun bytes => toString bytes ++ " B" }

/-! ## Validation at the entry points (`server.js` lines 38-51) -/

/-- The array `allowedTypes` of line 44. -/
def allowedTypes : List String :=
  ["image/jpeg", "image/png", "image/gif", "image/webp", "image/bmp"]

/-- The callback `fileFilter` of lines 43-50: `true` for `cb(null, true)`, `false` for the
call of `cb` with an error. -/
def fileFilter (mimetype : String) : Bool :=
  allowedTypes.contains mimetype

/-- The option `limits.fileSize` of line 41, the limit that multer is given; how multer
enforces it is not part of the repository. -/
def fileSizeLimit : Nat := 10 * 1024 * 1024

/-! ## Names and records made by ingestion -/

/-- The name computed at lines 119-121 from the clock reading `nameTime` and the
original name of the file; it is the target of the copy and the `filename` of
the record. -/
def storedFilename (nameTime name : String) : String :=
  "screenshot-" ++ sanitizeTimestamp nameTime ++ "." ++ extensionOf name

/-- The record that `addScreenshotFromFile` builds (lines 127-133) when the copy
succeeds. -/
def screenshotOf (env : AddReadings) (file : File) : Screenshot :=
  { id := env.add env.dateNow env.random
    filename := storedFilename env.nameTime file.name
    description := ""
    date := env.recordTime
    path := "assets/screenshots/" ++ storedFilename env.nameTime file.name }

/-- An SVG image of 100 bytes. -/
def sampleSvg : File :=
  { name := "logo.svg", path := "/home/user/logo.svg", type := "image/svg+xml", size := 100 }

/-- A second dropped PNG file. -/
def sampleFile2 : File :=
  { name := "other.png", path := "/home/user/other.png", type := "image/png", size := 4096 }

/-- Readings for `addScreenshotFromFile` in which the copy fails. -/
def failingAddReadings : AddReadings :=
  { sampleAddReadings with copyError := some "EACCES: permission denied" }

/-! ## Timers and description input (`renderer.js` lines 52-56, 204, 296-300) -/

/-- The timer set by `autoSave` seen at time `now`: when it is due it has run its
callback `saveScreenshots` and is no longer pending; a timer that is not yet due
is left pending. -/
def runTimers (now : Nat) (st : State) : State :=
  match st.autoSaveTimeout with
  | some due =>
    if due ≤ now then saveScreenshots { st with autoSaveTimeout := none } else st
  | none => st

/-- An `input` event on the description box of the card of record `id`: the moment it is
handled and the content of the box. -/
structure Edit where
  time : Nat
  id : Rat
  text : String

/-- What one `input` event on a description box runs: the timers that are due run
first, then the `oninput` attribute of line 204 calls `updateDescription`, then the
listener of lines 52-56 on `document` calls `autoSave`. -/
def descriptionInput (e : Edit) (st : State) : State :=
  autoSave e.time (updateDescription e.time e.id e.text (runTimers e.time st))

/-- A sequence of `input` events, handled in order. -/
def runEdits : List Edit → State → State
  | [], st => st
  | e :: rest, st => runEdits rest (descriptionInput e st)

/-- The time of the last event of the sequence `first :: rest`. -/
def lastTime (first : Edit) : List Edit → Nat
  | [] => first.time
  | e :: rest => lastTime e rest

/-! ## Sample data (`renderer.js` lines 521-547) -/

/-- The `map` of lines 528-534 from index `index` on: the record at index `i` has the id
`Date.now() + i`, with the clock read when that element is mapped. Both terms
are integers far below 2^53, so the double-precision sum is the exact sum. A
`filename` or `path` that the element does not have is kept as the empty
string. -/
def mapSampleData (env : ImportReadings) : Nat → List Candidate → List Screenshot
  | _, [] => []
  | index, item :: rest =>
    { id := env.dateNow index + index
      filename := item.filename.getD ""
      description := orElse item.description ""
      date := orElse item.date (env.toISOString index)
      path := item.path.getD "" } :: mapSampleData env (index + 1) rest

/-- The branch `if (result.success && Array.isArray(result.data))` of `loadSampleData`
(lines 527-541), where `data` is the array `result.data`. -/
def loadSampleData (env : ImportReadings) (data : List Candidate) (st : State) : State :=
  saveScreenshots
    { st with screenshots := mapSampleData env 0 data, filteredScreenshots := [] }

/-! ## Export (`renderer.js` lines 313-336) -/

/-- The array `exportData` of lines 322-327: the four exported properties of every
record, in collection order. -/
def exportData (screenshots : List Screenshot) : List Candidate :=
  screenshots.map fun screenshot =>
    { id := none
      filename := some screenshot.filename
      description := some screenshot.description
      date := some screenshot.date
      path := some screenshot.path }

/-- The function `exportAll` (lines 313-336); `canceled` and `filePath` are the reply of
the save dialog. The result is the path and the array handed to `write-json-file`,
or `none` when nothing is written. -/
def exportAll (canceled : Bool) (filePath : String) (st : State) :
    Option (String × List Candidate) :=
  if st.screenshots.length = 0 then none
  else if !canceled && decide (filePath ≠ "") then some (filePath, exportData st.screenshots)
  else none

/-- The four properties of a record that are exported and imported. -/
def recordFields (s : Screenshot) : String × String × String × String :=
  (s.filename, s.description, s.date, s.path)

/-- A state in which the filter box holds "cat" and both sample records are shown. -/
def filteredState : State :=
  ⟨[sampleA, sampleB], [sampleA, sampleB], none, []⟩

/-- Three description edits of the record with id 1, arriving at 0, 400 and 900 ms. -/
def sampleEdits : List Edit :=
  [⟨0, 1, "c"⟩, ⟨400, 1, "ca"⟩, ⟨900, 1, "cat!"⟩]

/-! ## Server: the middleware in front of the routes (`server.js` lines 11-13, 54, 328-331) -/

/-- The answer of the error-handling middleware of lines 328-331 to an error that a
middleware passes to `next`. -/
def internalServerError : Response :=
  ⟨500, .obj [("error", .str "Internal server error")]⟩

/-- The endpoint `POST /api/screenshots` from the body parsers on. `parsed` is what the
body parsers mounted at lines 12-13 make of the request: the value they store in
`req.body`, or the error they pass to `next`, which skips the route and is
answered by the error-handling middleware. -/
def postScreenshotsEndpoint (stringify : Json → String) (parsed : Except String Json)
    (fs : FileSys) : Response × FileSys :=
  match parsed with
  | .error _ => (internalServerError, fs)
  | .ok body => postScreenshots stringify body fs

/-- The endpoint `POST /api/data/:filename` from the body parsers on; `parsed` is as in
`postScreenshotsEndpoint`. The static middleware of line 54 passes every request
that is not a GET or HEAD on without looking at the files. -/
def postDataEndpoint (env : DataEnv) (parsed : Except String Json) (filename : String)
    (fs : FileSys) : Response × FileSys × List FsAccess :=
  match parsed with
  | .error _ => (internalServerError, fs, [])
  | .ok data => postData env filename data fs

/-- What an endpoint sends: the JSON response of a handler, or the content of a file
that `express.static` serves. -/
inductive Sent where
  | json (response : Response)
  | file (content : String)

/-- The endpoint `GET /api/data/:filename` from `express.static(__dirname)` (line 54) on.
`staticPath` is the file under `__dirname` that the static middleware looks up
for the request (`none` when it looks up none): it stats that path, serves the
file when it exists, and otherwise calls `next`, which leads to the route. -/
def getDataEndpoint (env : DataEnv) (staticPath : Option String) (filename : String)
    (fs : FileSys) : Sent × List FsAccess :=
  match staticPath with
  | some path =>
    match fs path with
    | some content => (.file content, [.stat path, .createReadStream path])
    | none => (.json (getData env filename fs).1, .stat path :: (getData env filename fs).2)
  | none => (.json (getData env filename fs).1, (getData env filename fs).2)

/-- Assumed library behaviour (`express.json` is not repository code): what
`express.json({ limit: "50mb" })` makes of a request with content type
`application/json` whose body is `text`, below the size limit. An empty body
gives the empty object; in strict mode, which is the default, a text whose first
character after blanks, tabs and line ends is neither an opening brace nor an
opening bracket is refused; every other text is given to `JSON.parse`. -/
def expressJson (parse : String → Except String Json) (text : String) : Except String Json :=
  if text = "" then .ok (.obj [])
  else
    match text.data.dropWhile (fun c => c = ' ' ∨ c = '\t' ∨ c = '\n' ∨ c = '\r') with
    | [] => .error "Unexpected end of JSON input"
    | c :: _ =>
      if c.toNat = 0x7B ∨ c.toNat = 0x5B then parse text
      else .error "Unexpected token in JSON at position 0"

/-- The segments of a path, split at the slashes. -/
def splitSlash (cs : List Char) : List (List Char) :=
  cs.foldr
    (fun c acc =>
      if c = '/' then [] :: acc
      else
        match acc with
        | segment :: rest => (c :: segment) :: rest
        | [] => [[c]])
    [[]]

/-- One step of path normalisation: `segments` are the segments kept so far, the last
one first; `none` is a path that has left its root. -/
def pushSegment (kept : Option (List (List Char))) (segment : List Char) :
    Option (List (List Char)) :=
  match kept with
  | none => none
  | some segments =>
    if segment = [] ∨ segment = ['.'] then some segments
    else if segment = ['.', '.'] then
      match segments with
      | [] => none
      | _ :: up => some up
    else some (segment :: segments)

/-- Assumed library behaviour (`express.static` is not repository code): the file under
`__dirname` that `express.static(__dirname)` looks up for a GET of
`/api/data/<filename>`, where `filename` is the decoded route parameter. The
decoded request path is normalised: empty segments and `.` are dropped, `..`
removes the segment before it, and a path that leaves the root is not looked
up. -/
def staticLookup (filename : String) : Option String :=
  ((splitSlash ("api/data/" ++ filename).data).foldl pushSegment (some [])).map
    fun segments => ⟨List.intercalate ['/'] segments.reverse⟩

/-- Server files in which only `server.js` exists. -/
def sourceFiles : FileSys :=
  fun p => if p = "server.js" then some "const express = require(\"express\");" else none

/-! ## Lemmas on strings -/

theorem trim_eq_empty_iff (s : String) : trim s = "" ↔ isBlank s = true := by
  unfold trim isBlank trimStart
  constructor
  · intro h
    have h1 : (List.dropWhile isJsWhiteSpace (List.dropWhile isJsWhiteSpace s.data).reverse).reverse
        = [] := by
      have := congrArg String.data h
      simpa using this
    rw [List.reverse_eq_nil_iff, List.dropWhile_eq_nil_iff] at h1
    have h2 : List.dropWhile isJsWhiteSpace s.data = [] := by
      cases hd : List.dropWhile isJsWhiteSpace s.data with
      | nil => rfl
      | cons c cs =>
        have hc : isJsWhiteSpace c = true := h1 c (by simp [hd])
        have hne : List.dropWhile isJsWhiteSpace s.data ≠ [] := by simp [hd]
        have := List.head_dropWhile_not isJsWhiteSpace s.data hne
        simp [hd, hc] at this
    rw [List.dropWhile_eq_nil_iff] at h2
    simpa [List.all_eq_true] using h2
  · intro h
    have h2 : List.dropWhile isJsWhiteSpace s.data = [] := by
      rw [List.dropWhile_eq_nil_iff]
      simpa [List.all_eq_true] using h
    simp [h2]

theorem isJsWhiteSpace_of_toNat_lt {c : Char} (h : 33 ≤ c.toNat ∧ c.toNat ≤ 126) :
    isJsWhiteSpace c = false := by
  simp only [isJsWhiteSpace, Bool.or_eq_false_iff, Bool.and_eq_false_iff, decide_eq_false_iff_not]
  omega

theorem isBlank_asciiToLowerCase (s : String) : isBlank (asciiToLowerCase s) = isBlank s := by
  unfold isBlank asciiToLowerCase
  simp only [List.all_map]
  congr 1
  funext c
  simp only [Function.comp]
  split
  · rename_i h
    have hc : isJsWhiteSpace c = false := isJsWhiteSpace_of_toNat_lt (by omega)
    rw [hc]
    apply isJsWhiteSpace_of_toNat_lt
    generalize c.toNat = n at h
    obtain ⟨h1, h2⟩ := h
    interval_cases n <;> decide
  · rfl

/-! ## Filtered view -/

/-- C1 (as stated) fails: with " cat" in the search box the spec's criterion
selects only the record described as "a cat", whereas the view also shows the
record described as "cat", because the code trims the term before matching. -/
theorem filteredView_not_untrimmed_match :
    isBlank " cat" = false ∧
    filteredView asciiToLowerCase " cat" sampleState = [sampleA, sampleB] ∧
    sampleState.screenshots.filter (containsCaseInsensitively asciiToLowerCase " cat")
      = [sampleB] := by
  decide

/-- C1 (amended): for a non-blank search term, `filterImages` stores exactly the
records whose lower-cased description or lower-cased filename contains the
lower-cased and trimmed term, in collection order, and whenever at least one
record matches that list is the displayed view. -/
theorem filterImages_selects_trimmed_matches (toLowerCase : String → String)
    (hlow : ∀ s, isBlank (toLowerCase s) = isBlank s)
    (value : String) (st : State) (hvalue : isBlank value = false) :
    (filterImages toLowerCase value st).filteredScreenshots
      = st.screenshots.filter (fun s =>
          includes (toLowerCase s.description) (trim (toLowerCase value)) ||
          includes (toLowerCase s.filename) (trim (toLowerCase value))) ∧
    ((∃ s ∈ st.screenshots,
        (includes (toLowerCase s.description) (trim (toLowerCase value)) ||
         includes (toLowerCase s.filename) (trim (toLowerCase value))) = true) →
      filteredView toLowerCase value st
        = st.screenshots.filter (fun s =>
            includes (toLowerCase s.description) (trim (toLowerCase value)) ||
            includes (toLowerCase s.filename) (trim (toLowerCase value)))) := by
  have hne : trim (toLowerCase value) ≠ "" := by
    intro h
    rw [trim_eq_empty_iff, hlow, hvalue] at h
    exact Bool.noConfusion h
  have hfil : (filterImages toLowerCase value st).filteredScreenshots
      = st.screenshots.filter (fun s =>
          includes (toLowerCase s.description) (trim (toLowerCase value)) ||
          includes (toLowerCase s.filename) (trim (toLowerCase value))) := by
    simp only [filterImages, if_neg hne]
    rfl
  refine ⟨hfil, ?_⟩
  rintro ⟨s, hs, hm⟩
  unfold filteredView renderGallery
  rw [hfil]
  have hmem : s ∈ st.screenshots.filter (fun s =>
      includes (toLowerCase s.description) (trim (toLowerCase value)) ||
      includes (toLowerCase s.filename) (trim (toLowerCase value))) :=
    List.mem_filter.mpr ⟨hs, hm⟩
  have hpos : (st.screenshots.filter (fun s =>
      includes (toLowerCase s.description) (trim (toLowerCase value)) ||
      includes (toLowerCase s.filename) (trim (toLowerCase value)))).length > 0 :=
    List.length_pos_of_mem hmem
  rw [if_pos hpos]

/-- Witness for C1 (amended): the term " CAT " on the two sample records. -/
theorem filterImages_selects_trimmed_matches_witness :
    isBlank " CAT " = false ∧
    (filterImages asciiToLowerCase " CAT " sampleState).filteredScreenshots
      = [sampleA, sampleB] ∧
    filteredView asciiToLowerCase " CAT " sampleState = [sampleA, sampleB] := by
  have h := filterImages_selects_trimmed_matches asciiToLowerCase isBlank_asciiToLowerCase
    " CAT " sampleState (by decide)
  refine ⟨by decide, ?_, ?_⟩
  · rw [h.1]; decide
  · rw [h.2 ⟨sampleA, by decide, by decide⟩]; decide

/-- When the term is not blank and no record matches it, `filterImages` stores the
empty list and the displayed view is the whole collection. -/
theorem filteredView_no_match (toLowerCase : String → String)
    (hlow : ∀ s, isBlank (toLowerCase s) = isBlank s)
    (value : String) (st : State) (hvalue : isBlank value = false)
    (hnone : ∀ s ∈ st.screenshots,
      (includes (toLowerCase s.description) (trim (toLowerCase value)) ||
       includes (toLowerCase s.filename) (trim (toLowerCase value))) = false) :
    (filterImages toLowerCase value st).filteredScreenshots = [] ∧
    filteredView toLowerCase value st = st.screenshots := by
  have hne : trim (toLowerCase value) ≠ "" := by
    intro h
    rw [trim_eq_empty_iff, hlow, hvalue] at h
    exact Bool.noConfusion h
  have hfil : (filterImages toLowerCase value st).filteredScreenshots = [] := by
    simp only [filterImages, if_neg hne]
    rw [List.filter_eq_nil_iff]
    intro s hs
    simpa [matchesSearch] using hnone s hs
  refine ⟨hfil, ?_⟩
  unfold filteredView renderGallery
  rw [hfil]
  simp [filterImages, if_neg hne]

/-- C2: when the search box is empty or holds only white space, the view
displayed after `filterImages` is the whole collection in its current order. -/
theorem filteredView_blank (toLowerCase : String → String)
    (hlow : ∀ s, isBlank (toLowerCase s) = isBlank s)
    (value : String) (st : State) (hvalue : isBlank value = true) :
    filteredView toLowerCase value st = st.screenshots := by
  have he : trim (toLowerCase value) = "" := by
    rw [trim_eq_empty_iff, hlow, hvalue]
  simp [filteredView, filterImages, he, renderGallery]

/-- Witness for C2: a search box holding a space, a tab and a no-break space. -/
theorem filteredView_blank_witness :
    isBlank " \t\u00a0" = true ∧
    filteredView asciiToLowerCase " \t\u00a0" sampleState = [sampleA, sampleB] :=
  ⟨by decide,
   filteredView_blank asciiToLowerCase isBlank_asciiToLowerCase " \t\u00a0" sampleState
     (by decide)⟩

/-! ## Import -/

theorem isValidEntry_filename {c : Candidate} (h : isValidEntry c = true) :
    ∃ f p, c.filename = some f ∧ c.path = some p := by
  unfold isValidEntry at h
  rw [Bool.and_eq_true] at h
  obtain ⟨h1, h2⟩ := h
  cases hf : c.filename with
  | none => simp [hf, truthy] at h1
  | some f =>
    cases hp : c.path with
    | none => simp [hp, truthy] at h2
    | some p => exact ⟨f, p, rfl, rfl⟩

theorem newFilenameCount_cons_of_mem (c : Candidate) (rest : List Candidate)
    (scr : List Screenshot) (f : String) (hf : c.filename = some f)
    (hmem : f ∈ scr.map (fun s => s.filename)) :
    newFilenameCount (c :: rest) scr = newFilenameCount rest scr := by
  unfold newFilenameCount
  rw [List.filterMap_cons_some hf, List.toFinset_cons]
  rw [Finset.insert_sdiff_of_mem]
  simpa using hmem

theorem newFilenameCount_cons_of_not_mem (c : Candidate) (rest : List Candidate)
    (scr : List Screenshot) (r : Screenshot) (hf : c.filename = some r.filename)
    (hmem : r.filename ∉ scr.map (fun s => s.filename)) :
    newFilenameCount (c :: rest) scr = newFilenameCount rest (r :: scr) + 1 := by
  unfold newFilenameCount
  rw [List.filterMap_cons_some hf, List.toFinset_cons, List.map_cons, List.toFinset_cons]
  have hS : r.filename ∉ (scr.map (fun s => s.filename)).toFinset := by simpa using hmem
  have hnot : r.filename ∉ (rest.filterMap (fun c => c.filename)).toFinset \
      insert r.filename (scr.map (fun s => s.filename)).toFinset := by simp
  rw [← Finset.card_insert_of_not_mem hnot]
  congr 1
  ext x
  simp only [Finset.mem_sdiff, Finset.mem_insert]
  constructor
  · rintro ⟨h1 | h1, h2⟩
    · exact Or.inl h1
    · by_cases hx : x = r.filename
      · exact Or.inl hx
      · exact Or.inr ⟨h1, fun h => h.elim hx h2⟩
  · rintro (h | ⟨h1, h2⟩)
    · exact ⟨Or.inl h, h ▸ hS⟩
    · exact ⟨Or.inr h1, fun h => h2 (Or.inr h)⟩

/-- The loop of `importAll` on valid entries: the records it adds are prepended, none
of them has a filename of the array it started from, there are as many of them
as there are new distinct filenames, and each is the `newScreenshot` of an entry. -/
theorem importLoop_spec (env : ImportReadings) (items : List Candidate) :
    ∀ (i : Nat) (scr : List Screenshot) (n : Nat),
      (∀ c ∈ items, isValidEntry c = true) →
      ∃ added : List Screenshot,
        importLoop env i items scr n = (added ++ scr, n + added.length) ∧
        (∀ r ∈ added, r.filename ∉ scr.map (fun s => s.filename)) ∧
        added.length = newFilenameCount items scr ∧
        (∀ r ∈ added, ∃ c ∈ items, ∃ j k, r = newScreenshot env j k c) := by
  induction items with
  | nil =>
    intro i scr n _
    exact ⟨[], by simp [importLoop], by simp, by simp [newFilenameCount], by simp⟩
  | cons item rest ih =>
    intro i scr n hvalid
    obtain ⟨f, p, hf, _⟩ := isValidEntry_filename (hvalid item (List.mem_cons_self _ _))
    have hrest : ∀ c ∈ rest, isValidEntry c = true :=
      fun c hc => hvalid c (List.mem_cons_of_mem _ hc)
    by_cases hex : scr.any (fun s => decide (some s.filename = item.filename)) = true
    · obtain ⟨added, h1, h2, h3, h4⟩ := ih (i + 1) scr n hrest
      have hmem : f ∈ scr.map (fun s => s.filename) := by
        rw [List.any_eq_true] at hex
        obtain ⟨s, hs, hsf⟩ := hex
        rw [hf] at hsf
        have : s.filename = f := by simpa using hsf
        exact List.mem_map.mpr ⟨s, hs, this⟩
      refine ⟨added, ?_, h2, ?_, ?_⟩
      · simp only [importLoop, hex, if_true]
        exact h1
      · rw [newFilenameCount_cons_of_mem item rest scr f hf hmem]
        exact h3
      · intro r hr
        obtain ⟨c, hc, j, k, hrc⟩ := h4 r hr
        exact ⟨c, List.mem_cons_of_mem _ hc, j, k, hrc⟩
    · have hr0 : (newScreenshot env i n item).filename = f := by simp [newScreenshot, hf]
      have hnot : f ∉ scr.map (fun s => s.filename) := by
        intro hmem
        apply hex
        obtain ⟨s, hs, hsf⟩ := List.mem_map.mp hmem
        rw [List.any_eq_true]
        exact ⟨s, hs, by simp [hf, hsf]⟩
      obtain ⟨added, h1, h2, h3, h4⟩ :=
        ih (i + 1) (newScreenshot env i n item :: scr) (n + 1) hrest
      refine ⟨added ++ [newScreenshot env i n item], ?_, ?_, ?_, ?_⟩
      · simp only [importLoop, hex, Bool.false_eq_true, if_false]
        rw [h1]
        simp only [List.append_assoc, List.singleton_append, List.length_append,
          List.length_singleton, Prod.mk.injEq, true_and]
        omega
      · intro r hr
        rcases List.mem_append.mp hr with hr | hr
        · intro hmem
          exact h2 r hr (by rw [List.map_cons]; exact List.mem_cons_of_mem _ hmem)
        · rw [List.mem_singleton] at hr
          rw [hr, hr0]
          exact hnot
      · rw [newFilenameCount_cons_of_not_mem item rest scr (newScreenshot env i n item)
          (by rw [hr0]; exact hf) (by rw [hr0]; exact hnot)]
        simp [h3]
      · intro r hr
        rcases List.mem_append.mp hr with hr | hr
        · obtain ⟨c, hc, j, k, hrc⟩ := h4 r hr
          exact ⟨c, List.mem_cons_of_mem _ hc, j, k, hrc⟩
        · rw [List.mem_singleton] at hr
          exact ⟨item, List.mem_cons_self _ _, i, n, hr⟩

theorem importLoop_withoutId (env : ImportReadings) (items : List Candidate) :
    ∀ (i : Nat) (scr : List Screenshot) (n : Nat),
      importLoop env i (items.map Candidate.withoutId) scr n = importLoop env i items scr n := by
  induction items with
  | nil => intro i scr n; rfl
  | cons item rest ih =>
    intro i scr n
    simp only [List.map_cons, importLoop]
    rw [ih, ih]
    rfl

theorem importAll_withoutId (env : ImportReadings) (data : List Candidate) (st : State) :
    importAll env (data.map Candidate.withoutId) st = importAll env data st := by
  have hf : (data.map Candidate.withoutId).filter isValidEntry
      = (data.filter isValidEntry).map Candidate.withoutId := by
    rw [List.filter_map]
    rfl
  unfold importAll
  simp only [hf, List.length_map, importLoop_withoutId]

/-- C3 (as stated) fails: an entry with a filename that no record has, but without
a `path`, counts towards K and is not added. -/
theorem importAll_drops_entry_without_path :
    newFilenameCount [entryWithoutPath] sampleState.screenshots = 1 ∧
    (importAll sampleReadings [entryWithoutPath] sampleState).1.screenshots.length
      = sampleState.screenshots.length := by
  decide

/-- C3 (amended): entries without a non-empty filename and a non-empty path are
dropped; among the remaining entries none whose filename a record of the
collection already has is added, and if their filenames take K distinct values
that no record has, `importAll` puts K records in front of the collection, so
its size grows by exactly K, and it reports K as the added count. -/
theorem importAll_adds_new_valid_filenames (env : ImportReadings) (data : List Candidate)
    (st : State) :
    ∃ added : List Screenshot,
      (importAll env data st).1.screenshots = added ++ st.screenshots ∧
      (∀ r ∈ added, r.filename ∉ st.screenshots.map (fun s => s.filename)) ∧
      (importAll env data st).1.screenshots.length
        = st.screenshots.length
          + newFilenameCount (data.filter isValidEntry) st.screenshots ∧
      (importAll env data st).2
        = (if (data.filter isValidEntry).length = 0 then ImportStatus.noValidEntries
           else if newFilenameCount (data.filter isValidEntry) st.screenshots > 0 then
             ImportStatus.imported
               (newFilenameCount (data.filter isValidEntry) st.screenshots)
           else ImportStatus.allExist) := by
  by_cases hv : (data.filter isValidEntry).length = 0
  · have hnil : data.filter isValidEntry = [] := List.length_eq_zero.mp hv
    refine ⟨[], ?_, by simp, ?_, ?_⟩
    · simp [importAll, hv]
    · simp [importAll, hv, hnil, newFilenameCount]
    · simp [importAll, hv]
  · obtain ⟨added, h1, h2, h3, _⟩ :=
      importLoop_spec env (data.filter isValidEntry) 0 st.screenshots 0
        (fun c hc => (List.mem_filter.mp hc).2)
    have hscr : (importAll env data st).1.screenshots = added ++ st.screenshots := by
      simp only [importAll, hv, if_false, h1]
      split <;> simp [saveScreenshots]
    refine ⟨added, hscr, h2, ?_, ?_⟩
    · rw [hscr, List.length_append, h3]
      omega
    · simp only [importAll, hv, if_false, h1, Nat.zero_add, h3]
      split <;> rfl

/-- Witness for C3 (amended): of an entry without a path, an entry with a known
filename and two entries with the same new filename, one is added. -/
theorem importAll_adds_new_valid_filenames_witness :
    (importAll sampleReadings
        [entryWithoutPath, entryWithKnownName, entryWithEmptyDate, entryWithEmptyDate]
        sampleState).1.screenshots.length = 3 := by
  obtain ⟨_, _, _, hlen, _⟩ := importAll_adds_new_valid_filenames sampleReadings
    [entryWithoutPath, entryWithKnownName, entryWithEmptyDate, entryWithEmptyDate] sampleState
  rw [hlen]
  decide

/-- C4 (as stated) fails: the entry has a `date` property, the empty string, and the
record added for it carries the current time instead. -/
theorem importAll_replaces_empty_date :
    entryWithEmptyDate.date = some "" ∧
    (importAll sampleReadings [entryWithEmptyDate] sampleState).1.screenshots.map
        (fun s => (s.filename, s.date))
      = [("new.png", "2025-08-24T00:00:00.000Z"), ("a.png", "2025-01-01T00:00:00.000Z"),
         ("b.png", "2025-01-02T00:00:00.000Z")] := by
  decide

/-- The loop of `importAll` on valid entries, record by record: the record added as
number `k` (counting from `n`) is the `newScreenshot` of an entry of the list,
built with the running count `n + k`. -/
theorem importLoop_added (env : ImportReadings) (items : List Candidate) :
    ∀ (i : Nat) (scr : List Screenshot) (n : Nat),
      ∃ added : List Screenshot,
        importLoop env i items scr n = (added ++ scr, n + added.length) ∧
        ∀ (k : Nat) (r : Screenshot), added.reverse[k]? = some r →
          ∃ (j : Nat) (c : Candidate), i ≤ j ∧ items[j - i]? = some c ∧
            r = newScreenshot env j (n + k) c := by
  induction items with
  | nil =>
    intro i scr n
    exact ⟨[], by simp [importLoop], by simp⟩
  | cons item rest ih =>
    intro i scr n
    by_cases hex : scr.any (fun s => decide (some s.filename = item.filename)) = true
    · obtain ⟨added, h1, h2⟩ := ih (i + 1) scr n
      refine ⟨added, ?_, ?_⟩
      · simp only [importLoop, hex, if_true]
        exact h1
      · intro k r hk
        obtain ⟨j, c, hj, hc, hr⟩ := h2 k r hk
        refine ⟨j, c, by omega, ?_, hr⟩
        rw [show j - i = (j - (i + 1)) + 1 by omega, List.getElem?_cons_succ]
        exact hc
    · obtain ⟨added, h1, h2⟩ :=
        ih (i + 1) (newScreenshot env i n item :: scr) (n + 1)
      refine ⟨added ++ [newScreenshot env i n item], ?_, ?_⟩
      · simp only [importLoop, hex, Bool.false_eq_true, if_false]
        rw [h1]
        simp only [List.append_assoc, List.singleton_append, List.length_append,
          List.length_singleton, Prod.mk.injEq, true_and]
        omega
      · intro k r hk
        rw [List.reverse_append, List.reverse_singleton, List.singleton_append] at hk
        cases k with
        | zero =>
          have hr : newScreenshot env i n item = r := by simpa using hk
          exact ⟨i, item, le_refl i, by simp, by rw [← hr]; rfl⟩
        | succ k' =>
          rw [List.getElem?_cons_succ] at hk
          obtain ⟨j, c, hj, hc, hr⟩ := h2 k' r hk
          refine ⟨j, c, by omega, ?_, ?_⟩
          · rw [show j - i = (j - (i + 1)) + 1 by omega, List.getElem?_cons_succ]
            exact hc
          · rw [hr, show n + 1 + k' = n + (k' + 1) by omega]

/-- C4 (amended): the records that `importAll` adds stand in front of the pre-existing
records, which are kept as they were and in their order. The record added as
number `k` of the import (counting from zero) carries the filename and path of a
valid entry, that entry's description or the empty string when it has none,
that entry's date or the current time when the date is missing or empty, and
as id the double-precision sum of the clock reading, the random draw and the
running count `k`; the result does not depend on the ids of the entries. -/
theorem importAll_record_fields (env : ImportReadings) (data : List Candidate) (st : State) :
    (∃ added : List Screenshot,
      (importAll env data st).1.screenshots = added ++ st.screenshots ∧
      ∀ (k : Nat) (r : Screenshot), added.reverse[k]? = some r →
        ∃ (i : Nat) (c : Candidate),
          (data.filter isValidEntry)[i]? = some c ∧
          c.filename = some r.filename ∧
          c.path = some r.path ∧
          (∀ d, c.description = some d → r.description = d) ∧
          (c.description = none → r.description = "") ∧
          (∀ d, c.date = some d → d ≠ "" → r.date = d) ∧
          (c.date = none ∨ c.date = some "" → r.date = env.toISOString i) ∧
          r.id = env.add (env.add (env.dateNow i) (env.random i)) k) ∧
    (∀ data' : List Candidate,
      data'.map Candidate.withoutId = data.map Candidate.withoutId →
      importAll env data' st = importAll env data st) := by
  constructor
  · by_cases hv : (data.filter isValidEntry).length = 0
    · refine ⟨[], ?_, by simp⟩
      simp [importAll, hv]
    · obtain ⟨added, h1, h2⟩ :=
        importLoop_added env (data.filter isValidEntry) 0 st.screenshots 0
      refine ⟨added, ?_, ?_⟩
      · simp only [importAll, hv, if_false, h1]
        split <;> simp [saveScreenshots]
      · intro k r hk
        obtain ⟨j, c, _, hc, hrc⟩ := h2 k r hk
        rw [Nat.sub_zero] at hc
        rw [Nat.zero_add] at hrc
        have hcv : isValidEntry c = true :=
          (List.mem_filter.mp (List.getElem?_mem hc)).2
        obtain ⟨f, p, hf, hp⟩ := isValidEntry_filename hcv
        refine ⟨j, c, hc, ?_, ?_, ?_, ?_, ?_, ?_, ?_⟩
        · simp [hrc, newScreenshot, hf]
        · simp [hrc, newScreenshot, hp]
        · intro d hd
          by_cases he : d = "" <;> simp [hrc, newScreenshot, orElse, hd, he]
        · intro hd
          simp [hrc, newScreenshot, orElse, hd]
        · intro d hd hne
          simp [hrc, newScreenshot, orElse, hd, hne]
        · rintro (hd | hd) <;> simp [hrc, newScreenshot, orElse, hd]
        · simp [hrc, newScreenshot]
  · intro data' h
    rw [← importAll_withoutId env data', h, importAll_withoutId]

/-- Witness for C4 (amended): of an entry with a known filename and two new entries,
the second new entry is added as number 1 and its id carries the count 1; its
date, which the entry has, is kept. -/
theorem importAll_record_fields_witness :
    ∃ (r : Screenshot) (i : Nat),
      (importAll sampleReadings [entryWithKnownName, entryWithEmptyDate, entrySecond]
        sampleState).1.screenshots.head? = some r ∧
      r.filename = "second.png" ∧
      r.date = "2025-03-03T00:00:00.000Z" ∧
      r.id = sampleReadings.add
        (sampleReadings.add (sampleReadings.dateNow i) (sampleReadings.random i)) 1 := by
  obtain ⟨⟨added, happ, hall⟩, _⟩ := importAll_record_fields sampleReadings
    [entryWithKnownName, entryWithEmptyDate, entrySecond] sampleState
  have hscr : (importAll sampleReadings [entryWithKnownName, entryWithEmptyDate, entrySecond]
      sampleState).1.screenshots
      = [newScreenshot sampleReadings 2 1 entrySecond,
         newScreenshot sampleReadings 1 0 entryWithEmptyDate] ++ sampleState.screenshots := by
    rfl
  have hadd : added = [newScreenshot sampleReadings 2 1 entrySecond,
      newScreenshot sampleReadings 1 0 entryWithEmptyDate] :=
    List.append_cancel_right (happ.symm.trans hscr)
  obtain ⟨i, c, _, hf, _, _, _, hd, _, hid⟩ :=
    hall 1 (newScreenshot sampleReadings 2 1 entrySecond) (by rw [hadd]; rfl)
  refine ⟨newScreenshot sampleReadings 2 1 entrySecond, i, by rw [hscr]; rfl, rfl, rfl, ?_⟩
  exact_mod_cast hid

/-! ## Saving after a change -/

theorem addEach_saved (env : Nat → AddReadings) (files : List File) :
    ∀ (i : Nat) (st : State),
      (addEach env i files st).saved = st.saved ∧
      (addEach env i files st).autoSaveTimeout = st.autoSaveTimeout := by
  induction files with
  | nil => intro i st; exact ⟨rfl, rfl⟩
  | cons file rest ih =>
    intro i st
    unfold addEach
    cases h : addScreenshotFromFile (env i) file st with
    | error e => exact ⟨rfl, rfl⟩
    | ok st' =>
      have hst : st'.saved = st.saved ∧ st'.autoSaveTimeout = st.autoSaveTimeout := by
        unfold addScreenshotFromFile at h
        cases hc : copyImageToAssets (env i).copyError
            ("screenshot-" ++ sanitizeTimestamp (env i).nameTime ++ "." ++ extensionOf file.name)
          with
        | error e => simp [hc] at h
        | ok result =>
          simp only [hc] at h
          split at h
          · injection h with h; subst h; exact ⟨rfl, rfl⟩
          · injection h with h; subst h; exact ⟨rfl, rfl⟩
      simp only []
      rw [(ih (i + 1) st').1, (ih (i + 1) st').2]
      exact hst

/-- The ingestion entry points never issue a save request and never set the
auto-save timer, whatever they add. -/
theorem ingestion_never_saves (env : Nat → AddReadings) (st : State) :
    (∀ files, (processFiles env files st).saved = st.saved ∧
      (processFiles env files st).autoSaveTimeout = st.autoSaveTimeout) ∧
    (∀ canceled filePaths,
      (selectAndUploadImages env canceled filePaths st).saved = st.saved ∧
      (selectAndUploadImages env canceled filePaths st).autoSaveTimeout
        = st.autoSaveTimeout) := by
  constructor
  · intro files
    unfold processFiles
    simp only []
    split
    · exact ⟨rfl, rfl⟩
    · exact addEach_saved env _ 0 st
  · intro canceled filePaths
    unfold selectAndUploadImages
    split
    · exact addEach_saved env _ 0 st
    · exact ⟨rfl, rfl⟩

/-- The other operations that change the collection send the new collection to the
server or set the auto-save timer: removal, clearing and import save at once,
a description edit schedules `saveScreenshots`. -/
theorem other_changes_save (st : State) :
    (∀ id, (removeScreenshot true id st).saved
      = st.saved ++ [(removeScreenshot true id st).screenshots]) ∧
    ((clearAll true st).saved = st.saved ++ [(clearAll true st).screenshots]) ∧
    (∀ env data, (importAll env data st).1.screenshots ≠ st.screenshots →
      (importAll env data st).1.saved = st.saved ++ [(importAll env data st).1.screenshots]) ∧
    (∀ now id text, (updateDescription now id text st).screenshots ≠ st.screenshots →
      (updateDescription now id text st).autoSaveTimeout = some (now + 1000)) := by
  refine ⟨fun id => rfl, rfl, ?_, ?_⟩
  · intro env data hne
    unfold importAll at hne ⊢
    simp only [] at hne ⊢
    split
    · rename_i h; simp [h] at hne
    · rename_i h
      simp only [h, if_false] at hne
      split
      · rfl
      · rename_i h0
        exfalso
        obtain ⟨added, h1, _, _, _⟩ :=
          importLoop_spec env (data.filter isValidEntry) 0 st.screenshots 0
            (fun c hc => (List.mem_filter.mp hc).2)
        rw [h1] at h0 hne
        simp only [Nat.zero_add, gt_iff_lt, List.length_pos, ne_eq, not_not] at h0
        simp [h0] at hne
  · intro now id text hne
    unfold updateDescription at hne ⊢
    split
    · rfl
    · rename_i h; simp [h] at hne

/-- C5 (the code at the failing input): dropping one valid image whose copy succeeds
puts a record into the empty collection, and neither a save request is issued
nor the auto-save timer set. -/
theorem processFiles_adds_without_saving :
    (processFiles (fun _ => sampleAddReadings) [sampleFile] emptyState).screenshots.map
        (fun s => s.filename) = ["screenshot-2025-08-24T00-00-00-000Z.png"] ∧
    (processFiles (fun _ => sampleAddReadings) [sampleFile] emptyState).screenshots
      ≠ emptyState.screenshots ∧
    (processFiles (fun _ => sampleAddReadings) [sampleFile] emptyState).saved = [] ∧
    (processFiles (fun _ => sampleAddReadings) [sampleFile] emptyState).autoSaveTimeout
      = none := by
  decide

/-! ## Removal -/

/-- C6: a confirmed `removeScreenshot(id)` leaves exactly the records whose id differs
from `id`, in their original order; when no record has that id the collection
is unchanged, and a second call with the same id leaves the collection as the
first call left it. -/
theorem removeScreenshot_keeps_other_ids (id : Rat) (st : State) :
    (removeScreenshot true id st).screenshots
      = st.screenshots.filter (fun s => decide (s.id ≠ id)) ∧
    ((∀ s ∈ st.screenshots, s.id ≠ id) →
      (removeScreenshot true id st).screenshots = st.screenshots) ∧
    (removeScreenshot true id (removeScreenshot true id st)).screenshots
      = (removeScreenshot true id st).screenshots := by
  refine ⟨rfl, ?_, ?_⟩
  · intro h
    show st.screenshots.filter (fun s => decide (s.id ≠ id)) = st.screenshots
    rw [List.filter_eq_self]
    intro s hs
    simpa using h s hs
  · show (st.screenshots.filter (fun s => decide (s.id ≠ id))).filter
        (fun s => decide (s.id ≠ id)) = st.screenshots.filter (fun s => decide (s.id ≠ id))
    rw [List.filter_filter]
    simp

/-- Witness for C6: removing id 5, which no sample record has, and removing id 1. -/
theorem removeScreenshot_keeps_other_ids_witness :
    (∀ s ∈ sampleState.screenshots, s.id ≠ 5) ∧
    (removeScreenshot true 5 sampleState).screenshots = [sampleA, sampleB] ∧
    (removeScreenshot true 1 sampleState).screenshots = [sampleB] := by
  have h5 : ∀ s ∈ sampleState.screenshots, s.id ≠ 5 := by decide
  refine ⟨h5, (removeScreenshot_keeps_other_ids 5 sampleState).2.1 h5, ?_⟩
  rw [(removeScreenshot_keeps_other_ids 1 sampleState).1]
  decide

/-! ## Description edits -/

theorem setDescription_length (id : Rat) (text : String) (l : List Screenshot) :
    (setDescription id text l).length = l.length := by
  induction l with
  | nil => rfl
  | cons s rest ih =>
    unfold setDescription
    split <;> simp [ih]

theorem setDescription_first (id : Rat) (text : String) (l : List Screenshot) :
    ∀ (i : Nat) (s : Screenshot), l[i]? = some s → s.id = id →
      (∀ j < i, ∀ t, l[j]? = some t → t.id ≠ id) →
      (setDescription id text l)[i]? = some { s with description := text } := by
  induction l with
  | nil => intro i s h; simp at h
  | cons a rest ih =>
    intro i s h hid hfirst
    unfold setDescription
    cases i with
    | zero =>
      have ha : a = s := by simpa using h
      subst ha
      simp [hid]
    | succ k =>
      have ha : a.id ≠ id := hfirst 0 (Nat.succ_pos k) a (by simp)
      have hk : rest[k]? = some s := by simpa using h
      simp only [ha, if_false, List.getElem?_cons_succ]
      exact ih k s hk hid (fun j hj t ht => hfirst (j + 1) (Nat.succ_lt_succ hj) t (by simpa using ht))

theorem setDescription_other (id : Rat) (text : String) (l : List Screenshot) :
    ∀ (i : Nat) (s : Screenshot), l[i]? = some s →
      (s.id ≠ id ∨ ∃ j < i, ∃ t, l[j]? = some t ∧ t.id = id) →
      (setDescription id text l)[i]? = some s := by
  induction l with
  | nil => intro i s h; simp at h
  | cons a rest ih =>
    intro i s h hcase
    unfold setDescription
    by_cases ha : a.id = id
    · simp only [ha, if_true]
      cases i with
      | zero =>
        have has : a = s := by simpa using h
        subst has
        rcases hcase with hne | ⟨j, hj, _⟩
        · exact absurd ha hne
        · exact absurd hj (Nat.not_lt_zero j)
      | succ k => simpa using h
    · simp only [ha, if_false]
      cases i with
      | zero => simpa using h
      | succ k =>
        have hk : rest[k]? = some s := by simpa using h
        simp only [List.getElem?_cons_succ]
        apply ih k s hk
        rcases hcase with hne | ⟨j, hj, t, ht, htid⟩
        · exact Or.inl hne
        · cases j with
          | zero =>
            have hat : a = t := by simpa using ht
            subst hat
            exact absurd htid ha
          | succ j' =>
            exact Or.inr ⟨j', Nat.lt_of_succ_lt_succ hj, t, by simpa using ht, htid⟩

theorem setDescription_absent (id : Rat) (text : String) (l : List Screenshot)
    (h : ∀ s ∈ l, s.id ≠ id) : setDescription id text l = l := by
  induction l with
  | nil => rfl
  | cons a rest ih =>
    unfold setDescription
    have ha : a.id ≠ id := h a (List.mem_cons_self _ _)
    simp only [ha, if_false]
    rw [ih (fun s hs => h s (List.mem_cons_of_mem _ hs))]

theorem updateDescription_screenshots (now : Nat) (id : Rat) (text : String) (st : State) :
    (updateDescription now id text st).screenshots = setDescription id text st.screenshots := by
  unfold updateDescription
  split
  · rfl
  · rename_i h
    rw [List.find?_eq_none] at h
    rw [setDescription_absent]
    intro s hs
    simpa using h s hs

/-- C7: `updateDescription(id, text)` keeps the length and order of the collection;
the first record whose id is `id` gets `text` as its description and keeps its
id, filename, date and path; every other record is unchanged; and when no
record has that id nothing changes at all. -/
theorem updateDescription_frame (now : Nat) (id : Rat) (text : String) (st : State) :
    (updateDescription now id text st).screenshots.length = st.screenshots.length ∧
    (∀ (i : Nat) (s : Screenshot), st.screenshots[i]? = some s → s.id = id →
      (∀ j < i, ∀ t, st.screenshots[j]? = some t → t.id ≠ id) →
      (updateDescription now id text st).screenshots[i]?
        = some ⟨s.id, s.filename, text, s.date, s.path⟩) ∧
    (∀ (i : Nat) (s : Screenshot), st.screenshots[i]? = some s →
      (s.id ≠ id ∨ ∃ j < i, ∃ t, st.screenshots[j]? = some t ∧ t.id = id) →
      (updateDescription now id text st).screenshots[i]? = some s) ∧
    ((∀ s ∈ st.screenshots, s.id ≠ id) → updateDescription now id text st = st) := by
  refine ⟨?_, ?_, ?_, ?_⟩
  · rw [updateDescription_screenshots, setDescription_length]
  · intro i s h hid hfirst
    rw [updateDescription_screenshots]
    exact setDescription_first id text st.screenshots i s h hid hfirst
  · intro i s h hcase
    rw [updateDescription_screenshots]
    exact setDescription_other id text st.screenshots i s h hcase
  · intro h
    unfold updateDescription
    split
    · rename_i x hx
      have := List.find?_some hx
      have hmem := List.mem_of_find?_eq_some hx
      exact absurd (by simpa using this) (h x hmem)
    · rfl

/-- Witness for C7: the description of the sample record with id 2 is set to "dog", and
an edit for id 5, which no record has, changes nothing. -/
theorem updateDescription_frame_witness :
    (updateDescription 0 2 "dog" sampleState).screenshots[1]?
      = some ⟨2, "b.png", "dog", "2025-01-02T00:00:00.000Z", "assets/screenshots/b.png"⟩ ∧
    (updateDescription 0 2 "dog" sampleState).screenshots[0]? = some sampleA ∧
    updateDescription 0 5 "dog" sampleState = sampleState := by
  refine ⟨?_, ?_, ?_⟩
  · exact (updateDescription_frame 0 2 "dog" sampleState).2.1 1 sampleB (by decide) (by decide)
      (by decide)
  · exact (updateDescription_frame 0 2 "dog" sampleState).2.2.1 0 sampleA (by decide)
      (Or.inl (by decide))
  · exact (updateDescription_frame 0 5 "dog" sampleState).2.2.2 (by decide)

/-! ## Server -/

set_option maxRecDepth 100000

theorem Screenshot.toJson_injective : Function.Injective Screenshot.toJson := by
  intro a b h
  cases a
  cases b
  simp only [Screenshot.toJson, Json.obj.injEq, List.cons.injEq, Prod.mk.injEq, Json.num.injEq,
    Json.str.injEq, true_and, and_true] at h
  obtain ⟨h1, h2, h3, h4, h5⟩ := h
  subst h1 h2 h3 h4 h5
  rfl

/-- Whenever the backing file holds text that is not JSON, `GET /api/screenshots`
answers 500. -/
theorem getScreenshots_invalid_json (parse : String → Except String Json) (fs : FileSys)
    (data message : String) (hfile : fs screenshotsFile = some data)
    (hparse : parse data = .error message) :
    (getScreenshots parse fs).status = 500 := by
  simp [getScreenshots, hfile, hparse]

/-- Whenever the backing file holds JSON that is neither an array nor `null`,
`GET /api/screenshots` answers 200 with that value as `data`. -/
theorem getScreenshots_non_array (parse : String → Except String Json) (fs : FileSys)
    (data : String) (value : Json) (hfile : fs screenshotsFile = some data)
    (hparse : parse data = .ok value) (harr : value.isArray = false) (hnull : value ≠ .null) :
    ∃ count, getScreenshots parse fs
      = ⟨200, .obj ([("success", .bool true), ("data", value)] ++ optionalField "count" count)⟩ := by
  cases value with
  | null => exact absurd rfl hnull
  | arr items => simp [Json.isArray] at harr
  | bool b => exact ⟨none, by simp [getScreenshots, hfile, hparse, Json.lengthProperty]⟩
  | num n => exact ⟨none, by simp [getScreenshots, hfile, hparse, Json.lengthProperty]⟩
  | str t =>
    exact ⟨some (.num (utf16Length t)),
      by simp [getScreenshots, hfile, hparse, Json.lengthProperty]⟩
  | obj fields =>
    exact ⟨fields.lookup "length",
      by simp [getScreenshots, hfile, hparse, Json.lengthProperty]⟩

/-- C8 (the code at the failing input): when the backing file holds the empty JSON
object, `GET /api/screenshots` answers 200 with `success: true` and the object as
`data`, and no `count`. -/
theorem getScreenshots_returns_object :
    getScreenshots sampleParse (filesWith "\x7b\x7d")
      = ⟨200, .obj [("success", .bool true), ("data", .obj [])]⟩ := by
  rfl

/-- C9: when `JSON.parse` reads back what `JSON.stringify` writes for a collection,
saving the collection with `POST /api/screenshots` succeeds, and the following
`GET /api/screenshots` answers 200 with `success: true`, `data` equal to the saved
array, record by record and in the same order, and `count` equal to its length;
the array determines every field of every record. -/
theorem save_then_load (stringify : Json → String) (parse : String → Except String Json)
    (c : List Screenshot) (fs : FileSys)
    (hcodec : parse (stringify (.arr (c.map Screenshot.toJson)))
      = .ok (.arr (c.map Screenshot.toJson))) :
    (postScreenshots stringify (.arr (c.map Screenshot.toJson)) fs).1.status = 200 ∧
    getScreenshots parse (postScreenshots stringify (.arr (c.map Screenshot.toJson)) fs).2
      = ⟨200, .obj [("success", .bool true), ("data", .arr (c.map Screenshot.toJson)),
          ("count", .num c.length)]⟩ ∧
    (∀ c' : List Screenshot, c'.map Screenshot.toJson = c.map Screenshot.toJson → c' = c) := by
  refine ⟨rfl, ?_, ?_⟩
  · simp [postScreenshots, getScreenshots, writeFileSync, hcodec, Json.lengthProperty,
      optionalField]
  · intro c' h
    exact List.map_injective_iff.mpr Screenshot.toJson_injective h

/-- Witness for C9: the collection `[sampleA]` saved over an empty collection. -/
theorem save_then_load_witness :
    getScreenshots sampleParse
        (postScreenshots sampleStringify (.arr ([sampleA].map Screenshot.toJson))
          (filesWith "[]")).2
      = ⟨200, .obj [("success", .bool true), ("data", .arr [sampleA.toJson]),
          ("count", .num 1)]⟩ := by
  have h := (save_then_load sampleStringify sampleParse [sampleA] (filesWith "[]") rfl).2.1
  simpa using h

/-- The route handler of `POST /api/screenshots` answers 400 exactly when `req.body` is not
an array; on a 400 no file changes; for an array body the backing file then
holds the serialization of the whole array, every other file is as before, and
the response is a success whose `count` is the length of the array. -/
theorem postScreenshots_array_guard (stringify : Json → String) (body : Json) (fs : FileSys) :
    ((postScreenshots stringify body fs).1.status = 400 ↔ body.isArray = false) ∧
    ((postScreenshots stringify body fs).1.status = 400 →
      (postScreenshots stringify body fs).2 = fs) ∧
    (∀ items, body = .arr items →
      (postScreenshots stringify body fs).2 screenshotsFile = some (stringify (.arr items)) ∧
      (∀ p, p ≠ screenshotsFile → (postScreenshots stringify body fs).2 p = fs p) ∧
      (postScreenshots stringify body fs).1.status = 200 ∧
      ∃ message, (postScreenshots stringify body fs).1.body
        = .obj [("success", .bool true), ("message", .str message),
            ("count", .num items.length)]) := by
  cases body with
  | arr items =>
    refine ⟨by simp [postScreenshots, Json.isArray], by simp [postScreenshots], ?_⟩
    intro items' h
    injection h with h
    subst h
    refine ⟨by simp [postScreenshots, writeFileSync], ?_, rfl, ⟨_, rfl⟩⟩
    intro p hp
    simp [postScreenshots, writeFileSync, hp]
  | null => exact ⟨by simp [postScreenshots, Json.isArray], fun _ => rfl, fun _ h => by cases h⟩
  | bool b => exact ⟨by simp [postScreenshots, Json.isArray], fun _ => rfl, fun _ h => by cases h⟩
  | num n => exact ⟨by simp [postScreenshots, Json.isArray], fun _ => rfl, fun _ h => by cases h⟩
  | str t => exact ⟨by simp [postScreenshots, Json.isArray], fun _ => rfl, fun _ h => by cases h⟩
  | obj f => exact ⟨by simp [postScreenshots, Json.isArray], fun _ => rfl, fun _ h => by cases h⟩

theorem postScreenshots_status (stringify : Json → String) (body : Json) (fs : FileSys) :
    (postScreenshots stringify body fs).1.status = 200 ∨
    (postScreenshots stringify body fs).1.status = 400 := by
  cases body <;> simp [postScreenshots]

/-- C10 (as stated) fails: a request whose JSON body is `null`, which is not an array,
is refused by the body parser and answered 500 by the error-handling
middleware, not 400. -/
theorem postScreenshotsEndpoint_null_body :
    sampleParse "null" = .ok .null ∧
    Json.isArray .null = false ∧
    (postScreenshotsEndpoint sampleStringify (expressJson sampleParse "null")
      (filesWith "[]")).1.status = 500 := by
  exact ⟨rfl, rfl, rfl⟩

/-- C10 (amended): `POST /api/screenshots` answers 400 exactly when the body parsers
hand the route a body that is not an array, and 500 exactly when they refuse the
request; on a 400 and on a 500 no file changes; for every array body the backing
file then holds the serialization of the whole array, every other file is as
before, and the response is a success whose `count` is the length of the array. -/
theorem postScreenshotsEndpoint_status (stringify : Json → String)
    (parsed : Except String Json) (fs : FileSys) :
    ((postScreenshotsEndpoint stringify parsed fs).1.status = 400 ↔
      ∃ body, parsed = .ok body ∧ body.isArray = false) ∧
    ((postScreenshotsEndpoint stringify parsed fs).1.status = 500 ↔
      ∃ e, parsed = .error e) ∧
    ((postScreenshotsEndpoint stringify parsed fs).1.status = 400 ∨
      (postScreenshotsEndpoint stringify parsed fs).1.status = 500 →
      (postScreenshotsEndpoint stringify parsed fs).2 = fs) ∧
    (∀ items, parsed = .ok (.arr items) →
      (postScreenshotsEndpoint stringify parsed fs).2 screenshotsFile
        = some (stringify (.arr items)) ∧
      (∀ p, p ≠ screenshotsFile → (postScreenshotsEndpoint stringify parsed fs).2 p = fs p) ∧
      (postScreenshotsEndpoint stringify parsed fs).1.status = 200 ∧
      ∃ message, (postScreenshotsEndpoint stringify parsed fs).1.body
        = .obj [("success", .bool true), ("message", .str message),
            ("count", .num items.length)]) := by
  cases parsed with
  | error e =>
    refine ⟨?_, ?_, fun _ => rfl, fun items h => by cases h⟩
    · simp [postScreenshotsEndpoint, internalServerError]
    · simp [postScreenshotsEndpoint, internalServerError]
  | ok body =>
    obtain ⟨h1, h2, h3⟩ := postScreenshots_array_guard stringify body fs
    have hst := postScreenshots_status stringify body fs
    refine ⟨?_, ?_, ?_, ?_⟩
    · show (postScreenshots stringify body fs).1.status = 400 ↔ _
      rw [h1]
      constructor
      · intro h; exact ⟨body, rfl, h⟩
      · rintro ⟨b, hb, hba⟩
        injection hb with hb
        rw [hb]; exact hba
    · show (postScreenshots stringify body fs).1.status = 500 ↔ _
      constructor
      · intro h
        rcases hst with h' | h' <;> rw [h'] at h <;> exact absurd h (by decide)
      · rintro ⟨e, he⟩
        cases he
    · show (postScreenshots stringify body fs).1.status = 400 ∨
        (postScreenshots stringify body fs).1.status = 500 → (postScreenshots stringify body fs).2 = fs
      rintro (h | h)
      · exact h2 h
      · rcases hst with h' | h' <;> rw [h'] at h <;> exact absurd h (by decide)
    · intro items h
      injection h with h
      exact h3 items h

/-- Witness for C10 (amended): an object body is answered 400 and leaves the files
alone, and the body `[sampleA]` replaces the content of the backing file. -/
theorem postScreenshotsEndpoint_status_witness :
    (postScreenshotsEndpoint sampleStringify (expressJson sampleParse "\x7b\x7d")
      (filesWith "[]")).1.status = 400 ∧
    (postScreenshotsEndpoint sampleStringify (expressJson sampleParse "\x7b\x7d")
      (filesWith "[]")).2 = filesWith "[]" ∧
    (postScreenshotsEndpoint sampleStringify (.ok (.arr [sampleA.toJson]))
      (filesWith "[]")).2 screenshotsFile = some sampleText := by
  have h1 := postScreenshotsEndpoint_status sampleStringify (expressJson sampleParse "\x7b\x7d")
    (filesWith "[]")
  have h2 := postScreenshotsEndpoint_status sampleStringify (.ok (.arr [sampleA.toJson]))
    (filesWith "[]")
  have hs : (postScreenshotsEndpoint sampleStringify (expressJson sampleParse "\x7b\x7d")
      (filesWith "[]")).1.status = 400 := h1.1.mpr ⟨.obj [], rfl, rfl⟩
  exact ⟨hs, h1.2.2.1 (Or.inl hs), (h2.2.2.2 [sampleA.toJson] rfl).1⟩

/-! ## Path traversal -/

theorem includesChars_iff (cs t : List Char) : includesChars cs t = true ↔ t <:+: cs := by
  induction cs with
  | nil =>
    cases t <;> simp [includesChars]
  | cons c rest ih =>
    unfold includesChars
    rw [Bool.or_eq_true, ih, List.infix_cons_iff, List.isPrefixOf_iff_prefix]

theorem includes_iff (s t : String) : includes s t = true ↔ t.data <:+: s.data :=
  includesChars_iff s.data t.data

theorem includes_char_of_mem (s : String) (c : Char) (h : c ∈ s.data) :
    includes s ⟨[c]⟩ = true := by
  rw [includes_iff]
  obtain ⟨a, b, hab⟩ := List.append_of_mem h
  exact ⟨a, b, by simp [hab]⟩

/-- For every filename that contains "..", a slash or a backslash, the route handlers
of `GET /api/data/:filename` and `POST /api/data/:filename` answer 400 with the
error "Invalid filename", make no call of the `fs` module, and leave every file
as it was. -/
theorem data_handlers_reject_traversal (env : DataEnv) (filename : String) (data : Json)
    (fs : FileSys)
    (h : "..".data <:+: filename.data ∨ '/' ∈ filename.data ∨ '\\' ∈ filename.data) :
    getData env filename fs = (⟨400, .obj [("error", .str "Invalid filename")]⟩, []) ∧
    postData env filename data fs
      = (⟨400, .obj [("error", .str "Invalid filename")]⟩, fs, []) := by
  have ht : isTraversal filename = true := by
    unfold isTraversal
    rcases h with h | h | h
    · rw [(includes_iff filename "..").mpr h]; rfl
    · rw [includes_char_of_mem filename '/' h]; simp
    · rw [includes_char_of_mem filename '\\' h]; simp
  simp [getData, postData, ht]

/-- C11 (as stated) fails: for the filename "../../server.js" the static middleware,
which runs before the route, stats the normalised path `server.js` and serves
that file; the request is not answered 400 and files are accessed. -/
theorem getDataEndpoint_serves_source :
    "..".data <:+: "../../server.js".data ∧
    getDataEndpoint sampleDataEnv (staticLookup "../../server.js") "../../server.js" sourceFiles
      = (.file "const express = require(\"express\");",
          [.stat "server.js", .createReadStream "server.js"]) := by
  exact ⟨by decide, rfl⟩

/-- C11 (amended): for every filename that contains "..", a slash or a backslash, the
route handlers of `GET` and `POST /api/data/:filename` answer 400 "Invalid
filename" without any `fs` call and without changing a file. On a GET the static
middleware comes first: it stats the path it looks up and serves that file
when it exists; when it does not exist, or no path is looked up, the answer is
the 400 of the handler and no other `fs` call is made. On a POST no `fs` call is
made and no file changes: the answer is the 400 of the handler when the body
parsers hand the route a body, and 500 when they refuse the request. -/
theorem data_endpoints_reject_traversal (env : DataEnv) (filename : String) (fs : FileSys)
    (staticPath : Option String) (parsed : Except String Json)
    (h : "..".data <:+: filename.data ∨ '/' ∈ filename.data ∨ '\\' ∈ filename.data) :
    (∀ data, getData env filename fs = (⟨400, .obj [("error", .str "Invalid filename")]⟩, []) ∧
      postData env filename data fs
        = (⟨400, .obj [("error", .str "Invalid filename")]⟩, fs, [])) ∧
    (∀ path content, staticPath = some path → fs path = some content →
      getDataEndpoint env staticPath filename fs
        = (.file content, [.stat path, .createReadStream path])) ∧
    (∀ path, staticPath = some path → fs path = none →
      getDataEndpoint env staticPath filename fs
        = (.json ⟨400, .obj [("error", .str "Invalid filename")]⟩, [.stat path])) ∧
    (staticPath = none →
      getDataEndpoint env staticPath filename fs
        = (.json ⟨400, .obj [("error", .str "Invalid filename")]⟩, [])) ∧
    (∀ data, parsed = .ok data →
      postDataEndpoint env parsed filename fs
        = (⟨400, .obj [("error", .str "Invalid filename")]⟩, fs, [])) ∧
    (∀ e, parsed = .error e →
      postDataEndpoint env parsed filename fs
        = (⟨500, .obj [("error", .str "Internal server error")]⟩, fs, [])) := by
  have hget := (data_handlers_reject_traversal env filename .null fs h).1
  refine ⟨fun data => data_handlers_reject_traversal env filename data fs h, ?_, ?_, ?_, ?_, ?_⟩
  · intro path content hp hc
    subst hp
    simp [getDataEndpoint, hc]
  · intro path hp hc
    subst hp
    simp [getDataEndpoint, hc, hget]
  · intro hp
    subst hp
    simp [getDataEndpoint, hget]
  · intro data hd
    subst hd
    exact (data_handlers_reject_traversal env filename data fs h).2
  · intro e he
    subst he
    rfl

/-- Witness for C11 (amended): for the filename "../secret.json" the static middleware
stats `api/secret.json`, which does not exist, and the handler answers 400; a
POST with an array body is answered 400 and leaves the files alone. -/
theorem data_endpoints_reject_traversal_witness :
    getDataEndpoint sampleDataEnv (staticLookup "../secret.json") "../secret.json"
        (filesWith "[]")
      = (.json ⟨400, .obj [("error", .str "Invalid filename")]⟩, [.stat "api/secret.json"]) ∧
    postDataEndpoint sampleDataEnv (expressJson sampleParse "[]") "../secret.json"
        (filesWith "[]")
      = (⟨400, .obj [("error", .str "Invalid filename")]⟩, filesWith "[]", []) := by
  have h := data_endpoints_reject_traversal sampleDataEnv "../secret.json" (filesWith "[]")
    (staticLookup "../secret.json") (expressJson sampleParse "[]") (Or.inl (by decide))
  exact ⟨h.2.2.1 "api/secret.json" (by decide) rfl, h.2.2.2.2.1 (.arr []) rfl⟩

/-! ## Ingestion -/

theorem addScreenshotFromFile_ok (env : AddReadings) (file : File) (st : State)
    (h : env.copyError = none) :
    addScreenshotFromFile env file st
      = .ok { st with screenshots := screenshotOf env file :: st.screenshots } := by
  simp [addScreenshotFromFile, copyImageToAssets, h, screenshotOf, storedFilename]

theorem addScreenshotFromFile_error (env : AddReadings) (file : File) (st : State)
    (message : String) (h : env.copyError = some message) :
    addScreenshotFromFile env file st = .error ("Failed to copy image: " ++ message) := by
  simp [addScreenshotFromFile, copyImageToAssets, h]

/-- The loop over the files: a record is put in front for each file up to the first
one whose copy fails, and for none after it. -/
theorem addEach_prefix (env : Nat → AddReadings) (files : List File) :
    ∀ (i m : Nat) (st : State), m ≤ files.length →
      (∀ j < m, (env (i + j)).copyError = none) →
      (m = files.length ∨ (env (i + m)).copyError ≠ none) →
      ∃ added : List Screenshot,
        (addEach env i files st).screenshots = added ++ st.screenshots ∧
        added.length = m ∧
        ∀ r ∈ added, ∃ j < m, ∃ file ∈ files.take m, r = screenshotOf (env (i + j)) file := by
  induction files with
  | nil =>
    intro i m st hm _ _
    have : m = 0 := by simpa using hm
    subst this
    exact ⟨[], rfl, rfl, by simp⟩
  | cons file rest ih =>
    intro i m st hm hok hstop
    cases m with
    | zero =>
      have hfail : (env i).copyError ≠ none := by
        rcases hstop with h | h
        · simp at h
        · simpa using h
      obtain ⟨message, hmsg⟩ := Option.ne_none_iff_exists'.mp hfail
      refine ⟨[], ?_, rfl, by simp⟩
      unfold addEach
      rw [addScreenshotFromFile_error (env i) file st message hmsg]
      rfl
    | succ k =>
      have h0 : (env i).copyError = none := by simpa using hok 0 (Nat.succ_pos k)
      obtain ⟨added, h1, h2, h3⟩ := ih (i + 1) k
        { st with screenshots := screenshotOf (env i) file :: st.screenshots }
        (by simpa using hm)
        (fun j hj => by
          have := hok (j + 1) (Nat.succ_lt_succ hj)
          rwa [show i + (j + 1) = i + 1 + j by omega] at this)
        (by
          rcases hstop with h | h
          · left; simpa using h
          · right; rwa [show i + (k + 1) = i + 1 + k by omega] at h)
      refine ⟨added ++ [screenshotOf (env i) file], ?_, by simp [h2], ?_⟩
      · unfold addEach
        rw [addScreenshotFromFile_ok (env i) file st h0]
        simp only [h1, List.append_assoc, List.singleton_append]
      · intro r hr
        rcases List.mem_append.mp hr with hr | hr
        · obtain ⟨j, hj, f, hf, hrf⟩ := h3 r hr
          refine ⟨j + 1, Nat.succ_lt_succ hj, f, ?_, ?_⟩
          · rw [List.take_succ_cons]; exact List.mem_cons_of_mem _ hf
          · rw [hrf, show i + 1 + j = i + (j + 1) by omega]
        · rw [List.mem_singleton] at hr
          exact ⟨0, Nat.succ_pos k, file, by simp, by simpa using hr⟩

theorem exists_first_failure (p : Nat → Prop) (n : Nat) :
    ∃ m ≤ n, (∀ j < m, p j) ∧ (m = n ∨ ¬ p m) := by
  induction n with
  | zero => exact ⟨0, le_refl 0, fun j hj => absurd hj (Nat.not_lt_zero j), Or.inl rfl⟩
  | succ n ih =>
    obtain ⟨m, hm, hall, hstop⟩ := ih
    rcases hstop with h | h
    · subst h
      by_cases hp : p m
      · refine ⟨m + 1, le_refl _, ?_, Or.inl rfl⟩
        intro j hj
        rcases Nat.lt_succ_iff_lt_or_eq.mp hj with h | h
        · exact hall j h
        · exact h ▸ hp
      · exact ⟨m, Nat.le_succ m, hall, Or.inr hp⟩
    · exact ⟨m, Nat.le_succ_of_le hm, hall, Or.inr h⟩

/-- The loop over the files puts records in front of the collection, one for each file
of an initial part of the list. -/
theorem addEach_shape (env : Nat → AddReadings) (files : List File) (i : Nat) (st : State) :
    ∃ added : List Screenshot,
      (addEach env i files st).screenshots = added ++ st.screenshots ∧
      added.length ≤ files.length ∧
      ∀ r ∈ added, ∃ j, ∃ file ∈ files, r = screenshotOf (env (i + j)) file := by
  obtain ⟨m, hm, hall, hstop⟩ :=
    exists_first_failure (fun j => (env (i + j)).copyError = none) files.length
  obtain ⟨added, h1, h2, h3⟩ := addEach_prefix env files i m st hm hall hstop
  refine ⟨added, h1, by omega, ?_⟩
  intro r hr
  obtain ⟨j, _, f, hf, hrf⟩ := h3 r hr
  exact ⟨j, f, List.mem_of_mem_take hf, hrf⟩

/-- C12 (as stated) fails: `processFiles` adds a record for a file of type
`image/svg+xml`, which is not one of the five listed types. -/
theorem processFiles_accepts_svg :
    sampleSvg.type ∉ allowedTypes ∧
    (processFiles (fun _ => sampleAddReadings) [sampleSvg] emptyState).screenshots.map
        (fun s => s.filename) = ["screenshot-2025-08-24T00-00-00-000Z.svg"] := by
  decide

/-- C12 (amended): `processFiles` adds records only for files whose type starts with
"image/" and whose size is at most 10 * 1024 * 1024 bytes; the upload
configuration of the server accepts through `fileFilter` exactly the five listed
types and hands multer a size limit of 10 * 1024 * 1024 bytes. -/
theorem validation_at_entry_points (env : Nat → AddReadings) (files : List File) (st : State)
    (mimetype : String) :
    (∃ added : List Screenshot,
      (processFiles env files st).screenshots = added ++ st.screenshots ∧
      ∀ r ∈ added, ∃ file ∈ files, ∃ j,
        "image/".data <+: file.type.data ∧ file.size ≤ 10 * 1024 * 1024 ∧
        r.filename = "screenshot-" ++ sanitizeTimestamp (env j).nameTime ++ "."
          ++ extensionOf file.name ∧
        r = screenshotOf (env j) file) ∧
    (fileFilter mimetype = true ↔
      mimetype = "image/jpeg" ∨ mimetype = "image/png" ∨ mimetype = "image/gif" ∨
        mimetype = "image/webp" ∨ mimetype = "image/bmp") ∧
    fileSizeLimit = 10 * 1024 * 1024 := by
  refine ⟨?_, ?_, rfl⟩
  · unfold processFiles
    simp only []
    split
    · exact ⟨[], rfl, by simp⟩
    · obtain ⟨added, h1, _, h3⟩ := addEach_shape env (files.filter isImageFile) 0 st
      refine ⟨added, h1, ?_⟩
      intro r hr
      obtain ⟨j, f, hf, hrf⟩ := h3 r hr
      obtain ⟨hfiles, hvalid⟩ := List.mem_filter.mp hf
      unfold isImageFile at hvalid
      rw [Bool.and_eq_true, List.isPrefixOf_iff_prefix, decide_eq_true_iff] at hvalid
      exact ⟨f, hfiles, 0 + j, hvalid.1, hvalid.2, by rw [hrf]; rfl, hrf⟩
  · simp [fileFilter, allowedTypes]

/-- Witness for C12 (amended): of a PNG of 2048 bytes and an SVG of 20 MiB dropped
together, every record added stems from a file of the batch with an image type
and at most 10 MiB; the upload filter accepts `image/png` and refuses
`image/svg+xml`. -/
theorem validation_at_entry_points_witness :
    (∃ added : List Screenshot,
      (processFiles (fun _ => sampleAddReadings)
        [sampleFile, { sampleSvg with size := 20 * 1024 * 1024 }] emptyState).screenshots
        = added ++ emptyState.screenshots ∧
      ∀ r ∈ added,
        ∃ file ∈ [sampleFile, { sampleSvg with size := 20 * 1024 * 1024 }], ∃ _j : Nat,
          "image/".data <+: file.type.data ∧ file.size ≤ 10 * 1024 * 1024 ∧
          r.filename = "screenshot-" ++ sanitizeTimestamp sampleAddReadings.nameTime ++ "."
            ++ extensionOf file.name ∧
          r = screenshotOf sampleAddReadings file) ∧
    fileFilter "image/png" = true ∧
    fileFilter "image/svg+xml" = false := by
  have h := validation_at_entry_points (fun _ => sampleAddReadings)
    [sampleFile, { sampleSvg with size := 20 * 1024 * 1024 }] emptyState "image/png"
  have h2 := validation_at_entry_points (fun _ => sampleAddReadings) [] emptyState
    "image/svg+xml"
  refine ⟨h.1, h.2.1.mpr (by decide), ?_⟩
  rw [Bool.eq_false_iff]
  intro hf
  exact absurd (h2.2.1.mp hf) (by decide)

/-- The picker entry point validates nothing: when the dialog returns one path and the
copy succeeds, a record is added whatever the file is. -/
theorem selectAndUploadImages_adds_any_file (env : Nat → AddReadings) (filePath : String)
    (st : State) (h : (env 0).copyError = none) :
    (selectAndUploadImages env false [filePath] st).screenshots
      = screenshotOf (env 0) ⟨baseName filePath, filePath, "", 0⟩ :: st.screenshots := by
  simp [selectAndUploadImages, addEach, addScreenshotFromFile_ok (env 0) _ st h]

/-- C13 (as stated) fails: the copy of the first of two valid files fails, the copy of
the second one would succeed, and no record is added for the second file. -/
theorem processFiles_stops_at_failed_copy :
    isImageFile sampleFile2 = true ∧
    sampleAddReadings.copyError = none ∧
    (processFiles (fun i => if i = 0 then failingAddReadings else sampleAddReadings)
      [sampleFile, sampleFile2] emptyState).screenshots = [] := by
  decide

/-- The loop over the files, record by record: when the copies of the first `m` files
succeed and the list ends there or the next copy fails, the records of exactly
these `m` files are put in front, the last one first. -/
theorem addEach_records (env : Nat → AddReadings) (files : List File) :
    ∀ (i m : Nat) (st : State), m ≤ files.length →
      (∀ j < m, (env (i + j)).copyError = none) →
      (m = files.length ∨ (env (i + m)).copyError ≠ none) →
      (addEach env i files st).screenshots
        = (List.zipWith (fun j file => screenshotOf (env j) file) (List.range' i m)
            (files.take m)).reverse ++ st.screenshots := by
  induction files with
  | nil =>
    intro i m st hm _ _
    have : m = 0 := by simpa using hm
    subst this
    rfl
  | cons file rest ih =>
    intro i m st hm hok hstop
    cases m with
    | zero =>
      have hfail : (env i).copyError ≠ none := by
        rcases hstop with h | h
        · simp at h
        · simpa using h
      obtain ⟨message, hmsg⟩ := Option.ne_none_iff_exists'.mp hfail
      unfold addEach
      rw [addScreenshotFromFile_error (env i) file st message hmsg]
      rfl
    | succ k =>
      have h0 : (env i).copyError = none := by simpa using hok 0 (Nat.succ_pos k)
      have hrest := ih (i + 1) k
        { st with screenshots := screenshotOf (env i) file :: st.screenshots }
        (by simpa using hm)
        (fun j hj => by
          have := hok (j + 1) (Nat.succ_lt_succ hj)
          rwa [show i + (j + 1) = i + 1 + j by omega] at this)
        (by
          rcases hstop with h | h
          · left; simpa using h
          · right; rwa [show i + (k + 1) = i + 1 + k by omega] at h)
      unfold addEach
      rw [addScreenshotFromFile_ok (env i) file st h0]
      simp only [hrest, List.range'_succ, List.take_succ_cons, List.zipWith_cons_cons,
        List.reverse_cons, List.append_assoc, List.singleton_append]

/-- C13 (amended): the files that validation rejects have no effect on the others, and
the valid files are added in order up to the first one whose copy fails: when
every copy succeeds each valid file gets its record, and when the copy of the
valid file at position `m` is the first to fail, exactly the `m` valid files
before it get their records, put in front of the collection with the last one
first, wherever the rejected files stand. -/
theorem processFiles_batch (env : Nat → AddReadings) (files : List File) (st : State) :
    processFiles env files st = processFiles env (files.filter isImageFile) st ∧
    ∀ m ≤ (files.filter isImageFile).length,
      (∀ j < m, (env j).copyError = none) →
      (m = (files.filter isImageFile).length ∨ (env m).copyError ≠ none) →
      (processFiles env files st).screenshots
        = (List.zipWith (fun j file => screenshotOf (env j) file) (List.range m)
            ((files.filter isImageFile).take m)).reverse ++ st.screenshots := by
  constructor
  · unfold processFiles
    simp only [List.filter_filter, Bool.and_self]
  · intro m hm hall hstop
    have h1 := addEach_records env (files.filter isImageFile) 0 m st hm
      (fun j hj => by simpa using hall j hj) (by simpa using hstop)
    rw [← List.range_eq_range'] at h1
    unfold processFiles
    simp only []
    split
    · rename_i h0
      rw [List.length_eq_zero.mp h0]
      simp [addEach]
    · exact h1

/-- Witness for C13 (amended): of an SVG of 20 MiB, a PNG, and a second PNG whose copy
fails, only the first PNG gets a record. -/
theorem processFiles_batch_witness :
    (processFiles (fun i => if i = 1 then failingAddReadings else sampleAddReadings)
      [{ sampleSvg with size := 20 * 1024 * 1024 }, sampleFile, sampleFile2]
      emptyState).screenshots = [screenshotOf sampleAddReadings sampleFile] :=
  (processFiles_batch (fun i => if i = 1 then failingAddReadings else sampleAddReadings)
    [{ sampleSvg with size := 20 * 1024 * 1024 }, sampleFile, sampleFile2] emptyState).2 1
    (by decide) (by decide) (Or.inr (by decide))

/-! ## Stored filenames -/

theorem append_dot_inj (a b e₁ e₂ : List Char) (h₁ : '.' ∉ e₁) (h₂ : '.' ∉ e₂)
    (h : a ++ '.' :: e₁ = b ++ '.' :: e₂) : a = b ∧ e₁ = e₂ := by
  induction a generalizing b with
  | nil =>
    cases b with
    | nil => exact ⟨rfl, by simpa using h⟩
    | cons y b' =>
      simp only [List.nil_append, List.cons_append, List.cons.injEq] at h
      exact absurd (h.2 ▸ (by simp : '.' ∈ b' ++ '.' :: e₂)) h₁
  | cons x a' ih =>
    cases b with
    | nil =>
      simp only [List.nil_append, List.cons_append, List.cons.injEq] at h
      exact absurd (h.2 ▸ (by simp : '.' ∈ a' ++ '.' :: e₁)) h₂
    | cons y b' =>
      simp only [List.cons_append, List.cons.injEq] at h
      obtain ⟨hab, hrest⟩ := ih b' h.2
      exact ⟨by rw [h.1, hab], hrest⟩

theorem extensionOf_no_dot (name : String) : '.' ∉ (extensionOf name).data := by
  unfold extensionOf
  intro h
  rw [List.mem_reverse] at h
  have := List.mem_takeWhile_imp h
  simp at this

theorem storedFilename_eq_iff (t₁ n₁ t₂ n₂ : String) :
    storedFilename t₁ n₁ = storedFilename t₂ n₂ ↔
      sanitizeTimestamp t₁ = sanitizeTimestamp t₂ ∧ extensionOf n₁ = extensionOf n₂ := by
  constructor
  · intro h
    have hd := congrArg String.data h
    simp only [storedFilename, String.data_append] at hd
    rw [List.append_assoc, List.append_assoc, List.append_assoc, List.append_assoc] at hd
    have hd2 := List.append_cancel_left hd
    simp only [List.singleton_append] at hd2
    obtain ⟨ht, he⟩ := append_dot_inj _ _ _ _ (extensionOf_no_dot n₁) (extensionOf_no_dot n₂) hd2
    exact ⟨String.ext ht, String.ext he⟩
  · rintro ⟨ht, he⟩
    simp only [storedFilename, ht, he]

/-- C16 (the code at the failing input): two files with different original names, both
PNG, dropped together and ingested at the same clock reading get the same
stored filename, so that the second copy has the target of the first and the
two records share their filename and path. -/
theorem ingestions_share_filename :
    sampleFile.name ≠ sampleFile2.name ∧
    (processFiles (fun _ => sampleAddReadings) [sampleFile, sampleFile2]
      emptyState).screenshots.map (fun s => (s.filename, s.path))
      = [("screenshot-2025-08-24T00-00-00-000Z.png",
          "assets/screenshots/screenshot-2025-08-24T00-00-00-000Z.png"),
         ("screenshot-2025-08-24T00-00-00-000Z.png",
          "assets/screenshots/screenshot-2025-08-24T00-00-00-000Z.png")] := by
  decide

/-- Two ingestions whose copies succeed each put a record in front of the collection,
and their stored filenames, which are also the targets of the two copies, differ
exactly when the sanitized clock readings differ or the extensions of the
original names differ. -/
theorem stored_filenames_differ_iff (e₁ e₂ : AddReadings) (f₁ f₂ : File) (st : State)
    (h₁ : e₁.copyError = none) (h₂ : e₂.copyError = none) :
    ∃ (st₁ st₂ : State) (r₁ r₂ : Screenshot),
      addScreenshotFromFile e₁ f₁ st = .ok st₁ ∧
      addScreenshotFromFile e₂ f₂ st₁ = .ok st₂ ∧
      st₂.screenshots = r₂ :: r₁ :: st.screenshots ∧
      r₁.path = "assets/screenshots/" ++ r₁.filename ∧
      r₂.path = "assets/screenshots/" ++ r₂.filename ∧
      (r₁.filename ≠ r₂.filename ↔
        sanitizeTimestamp e₁.nameTime ≠ sanitizeTimestamp e₂.nameTime ∨
        extensionOf f₁.name ≠ extensionOf f₂.name) := by
  refine ⟨_, _, screenshotOf e₁ f₁, screenshotOf e₂ f₂,
    addScreenshotFromFile_ok e₁ f₁ st h₁, addScreenshotFromFile_ok e₂ f₂ _ h₂, rfl, rfl, rfl, ?_⟩
  show storedFilename e₁.nameTime f₁.name ≠ storedFilename e₂.nameTime f₂.name ↔ _
  rw [Ne, storedFilename_eq_iff]
  tauto

/-! ## Debounced saving -/

theorem descriptionInput_not_due (e : Edit) (st : State)
    (h : ∀ due, st.autoSaveTimeout = some due → e.time < due) :
    (descriptionInput e st).saved = st.saved ∧
    (descriptionInput e st).autoSaveTimeout = some (e.time + 1000) ∧
    (descriptionInput e st).screenshots = setDescription e.id e.text st.screenshots := by
  have hrun : runTimers e.time st = st := by
    unfold runTimers
    cases hd : st.autoSaveTimeout with
    | none => rfl
    | some due =>
      have := h due hd
      simp only []
      rw [if_neg (by omega)]
  unfold descriptionInput
  rw [hrun]
  refine ⟨?_, rfl, ?_⟩
  · unfold updateDescription
    split <;> rfl
  · exact updateDescription_screenshots e.time e.id e.text st

theorem runEdits_burst (edits : List Edit) :
    ∀ (first : Edit) (st : State),
      (∀ due, st.autoSaveTimeout = some due → first.time < due) →
      List.Chain (fun a b : Edit => a.time ≤ b.time ∧ b.time < a.time + 1000) first edits →
      (runEdits (first :: edits) st).saved = st.saved ∧
      (runEdits (first :: edits) st).autoSaveTimeout = some (lastTime first edits + 1000) ∧
      (runEdits (first :: edits) st).screenshots
        = (first :: edits).foldl (fun l e => setDescription e.id e.text l) st.screenshots := by
  induction edits with
  | nil =>
    intro first st h _
    exact descriptionInput_not_due first st h
  | cons e rest ih =>
    intro first st h hchain
    obtain ⟨hs, ht, hc⟩ := descriptionInput_not_due first st h
    rw [List.chain_cons] at hchain
    obtain ⟨hrel, hrest⟩ := hchain
    have hnext : ∀ due, (descriptionInput first st).autoSaveTimeout = some due → e.time < due := by
      intro due hdue
      rw [ht] at hdue
      injection hdue with hdue
      omega
    obtain ⟨h1, h2, h3⟩ := ih e (descriptionInput first st) hnext hrest
    refine ⟨?_, ?_, ?_⟩
    · show (runEdits (e :: rest) (descriptionInput first st)).saved = st.saved
      rw [h1, hs]
    · show (runEdits (e :: rest) (descriptionInput first st)).autoSaveTimeout = _
      rw [h2]
      rfl
    · show (runEdits (e :: rest) (descriptionInput first st)).screenshots = _
      rw [h3, hc]
      rfl

/-- C14: in a burst of one or more description edits that starts when no timer is due
and in which every edit comes less than 1000 ms after the one before, no save is
issued during the burst or before 1000 ms have passed since the last edit, and
from that moment on exactly one save has been issued, whose body is the
collection as the last edit left it; no timer is pending afterwards. -/
theorem autoSave_debounce (first : Edit) (edits : List Edit) (st : State) (t : Nat)
    (hidle : ∀ due, st.autoSaveTimeout = some due → first.time < due)
    (hclose : List.Chain (fun a b : Edit => a.time ≤ b.time ∧ b.time < a.time + 1000)
      first edits) :
    (runEdits (first :: edits) st).saved = st.saved ∧
    (runEdits (first :: edits) st).screenshots
      = (first :: edits).foldl (fun l e => setDescription e.id e.text l) st.screenshots ∧
    (t < lastTime first edits + 1000 →
      (runTimers t (runEdits (first :: edits) st)).saved = st.saved) ∧
    (lastTime first edits + 1000 ≤ t →
      (runTimers t (runEdits (first :: edits) st)).saved
        = st.saved ++ [(runEdits (first :: edits) st).screenshots] ∧
      (runTimers t (runEdits (first :: edits) st)).autoSaveTimeout = none) := by
  obtain ⟨h1, h2, h3⟩ := runEdits_burst edits first st hidle hclose
  refine ⟨h1, h3, ?_, ?_⟩
  · intro ht
    unfold runTimers
    rw [h2]
    simp only []
    rw [if_neg (by omega)]
    exact h1
  · intro ht
    unfold runTimers
    rw [h2]
    simp only []
    rw [if_pos ht]
    exact ⟨by simp [saveScreenshots, h1], rfl⟩

/-- Witness for C14: three edits at 0, 400 and 900 ms; nothing is saved at 1899 ms, and
at 1900 ms one save has been issued. -/
theorem autoSave_debounce_witness :
    (runTimers 1899 (runEdits sampleEdits sampleState)).saved = [] ∧
    (runTimers 1900 (runEdits sampleEdits sampleState)).saved
      = [(runEdits sampleEdits sampleState).screenshots] := by
  have h1 := autoSave_debounce ⟨0, 1, "c"⟩ [⟨400, 1, "ca"⟩, ⟨900, 1, "cat!"⟩] sampleState 1899
    (fun _ h => Option.noConfusion h) (by simp)
  have h2 := autoSave_debounce ⟨0, 1, "c"⟩ [⟨400, 1, "ca"⟩, ⟨900, 1, "cat!"⟩] sampleState 1900
    (fun _ h => Option.noConfusion h) (by simp)
  exact ⟨h1.2.2.1 (by decide), (h2.2.2.2 (by decide)).1⟩

/-! ## Stale filtered view -/

/-- C17: when `filteredScreenshots` contains a record with the given id, a confirmed
`removeScreenshot(id)` leaves `filteredScreenshots` as it was, the list that
`renderGallery` then displays is that unchanged list, and the record is still in
it although it is no longer in the collection. -/
theorem removeScreenshot_keeps_filtered (id : Rat) (st : State) (r : Screenshot)
    (hr : r ∈ st.filteredScreenshots) (hid : r.id = id) :
    (removeScreenshot true id st).filteredScreenshots = st.filteredScreenshots ∧
    renderGallery (removeScreenshot true id st) = st.filteredScreenshots ∧
    r ∈ renderGallery (removeScreenshot true id st) ∧
    r ∉ (removeScreenshot true id st).screenshots := by
  have hf : (removeScreenshot true id st).filteredScreenshots = st.filteredScreenshots := rfl
  have hg : renderGallery (removeScreenshot true id st) = st.filteredScreenshots := by
    unfold renderGallery
    rw [hf, if_pos (List.length_pos_of_mem hr)]
  refine ⟨hf, hg, hg ▸ hr, ?_⟩
  intro hmem
  have hmem' : r ∈ st.screenshots.filter (fun s => decide (s.id ≠ id)) := hmem
  rw [List.mem_filter] at hmem'
  simpa [hid] using hmem'.2

/-- Witness for C17: both sample records are shown by the filter and the one with id 1 is
removed. -/
theorem removeScreenshot_keeps_filtered_witness :
    renderGallery (removeScreenshot true 1 filteredState) = [sampleA, sampleB] ∧
    sampleA ∉ (removeScreenshot true 1 filteredState).screenshots := by
  have h := removeScreenshot_keeps_filtered 1 filteredState sampleA (by decide) (by decide)
  exact ⟨h.2.1, h.2.2.2⟩

/-! ## Export followed by import -/

theorem importLoop_exportData (env : ImportReadings) (l : List Screenshot) :
    ∀ (i : Nat) (scr : List Screenshot) (n : Nat),
      (l.map (fun s => s.filename)).Nodup →
      (∀ s ∈ l, s.date ≠ "") →
      (∀ s ∈ l, s.filename ∉ scr.map (fun x => x.filename)) →
      (importLoop env i (exportData l) scr n).1.map recordFields
        = (l.map recordFields).reverse ++ scr.map recordFields := by
  induction l with
  | nil => intro i scr n _ _ _; simp [exportData, importLoop]
  | cons s rest ih =>
    intro i scr n hnodup hdate hfresh
    rw [List.map_cons, List.nodup_cons] at hnodup
    have hany : scr.any (fun x => decide (some x.filename = some s.filename)) = false := by
      rw [Bool.eq_false_iff]
      intro h
      rw [List.any_eq_true] at h
      obtain ⟨x, hx, hxs⟩ := h
      have hxs' : x.filename = s.filename := by simpa using hxs
      exact hfresh s (List.mem_cons_self _ _) (List.mem_map.mpr ⟨x, hx, hxs'⟩)
    have hds : s.date ≠ "" := hdate s (List.mem_cons_self _ _)
    have hfields : recordFields (newScreenshot env i n
        ⟨none, some s.filename, some s.description, some s.date, some s.path⟩)
        = recordFields s := by
      by_cases hdesc : s.description = "" <;>
        simp [recordFields, newScreenshot, orElse, hds, hdesc]
    have hstep : importLoop env i (exportData (s :: rest)) scr n
        = importLoop env (i + 1) (exportData rest)
            (newScreenshot env i n
              ⟨none, some s.filename, some s.description, some s.date, some s.path⟩ :: scr)
            (n + 1) := by
      simp only [exportData, List.map_cons, importLoop, hany, Bool.false_eq_true, if_false]
    rw [hstep, ih (i + 1) _ (n + 1) hnodup.2
      (fun x hx => hdate x (List.mem_cons_of_mem _ hx))]
    · rw [List.map_cons, hfields]
      simp
    · intro x hx hmem
      rw [List.map_cons, List.mem_cons] at hmem
      rcases hmem with hmem | hmem
      · apply hnodup.1
        have hxf : x.filename = s.filename := by simpa [newScreenshot] using hmem
        exact List.mem_map.mpr ⟨x, hx, hxf⟩
      · exact hfresh x (List.mem_cons_of_mem _ hx) hmem

theorem filter_exportData (l : List Screenshot)
    (h : ∀ s ∈ l, s.filename ≠ "" ∧ s.path ≠ "") :
    (exportData l).filter isValidEntry = exportData l := by
  rw [List.filter_eq_self]
  intro c hc
  obtain ⟨s, hs, hsc⟩ := List.mem_map.mp hc
  subst hsc
  simp [isValidEntry, truthy, (h s hs).1, (h s hs).2]

/-- C18: for a collection whose records have pairwise distinct non-empty filenames,
non-empty paths and non-empty dates, importing what `exportAll` writes into an
empty collection gives a collection of the same length whose record at position
`i` has the filename, description, date and path of the original record at
position `n - 1 - i`. -/
theorem export_then_import_reverses (env : ImportReadings) (st st₀ : State)
    (canceled : Bool) (filePath : String) (data : List Candidate)
    (hexport : exportAll canceled filePath st = some (filePath, data))
    (hnodup : (st.screenshots.map (fun s => s.filename)).Nodup)
    (hfields : ∀ s ∈ st.screenshots, s.filename ≠ "" ∧ s.path ≠ "" ∧ s.date ≠ "")
    (hempty : st₀.screenshots = []) :
    (importAll env data st₀).1.screenshots.length = st.screenshots.length ∧
    (importAll env data st₀).1.screenshots.map recordFields
      = (st.screenshots.map recordFields).reverse ∧
    ∀ i < st.screenshots.length,
      ((importAll env data st₀).1.screenshots[i]?).map recordFields
        = (st.screenshots[st.screenshots.length - 1 - i]?).map recordFields := by
  have hlen : st.screenshots.length ≠ 0 := by
    intro h
    simp [exportAll, h] at hexport
  have hdata : data = exportData st.screenshots := by
    unfold exportAll at hexport
    rw [if_neg hlen] at hexport
    split at hexport
    · injection hexport with hexport
      exact (congrArg Prod.snd hexport).symm
    · exact Option.noConfusion hexport
  have hvalid : data.filter isValidEntry = exportData st.screenshots := by
    rw [hdata]
    exact filter_exportData _ (fun s hs => ⟨(hfields s hs).1, (hfields s hs).2.1⟩)
  have hvlen : (exportData st.screenshots).length ≠ 0 := by
    simpa [exportData] using hlen
  have hmap : (importAll env data st₀).1.screenshots.map recordFields
      = (st.screenshots.map recordFields).reverse := by
    have hloop := importLoop_exportData env st.screenshots 0 st₀.screenshots 0 hnodup
      (fun s hs => (hfields s hs).2.2) (by simp [hempty])
    rw [hempty] at hloop
    simp only [List.map_nil, List.append_nil] at hloop
    unfold importAll
    simp only [hvalid, hvlen, if_false, hempty]
    split
    · exact hloop
    · exact hloop
  have hlength : (importAll env data st₀).1.screenshots.length = st.screenshots.length := by
    have := congrArg List.length hmap
    simpa using this
  refine ⟨hlength, hmap, ?_⟩
  intro i hi
  rw [← List.getElem?_map, ← List.getElem?_map, hmap,
    List.getElem?_reverse (by simpa using hi)]
  simp

/-- Witness for C18: the two sample records, exported and imported into the empty
collection, come back in the opposite order. -/
theorem export_then_import_reverses_witness :
    (importAll sampleReadings (exportData sampleState.screenshots) emptyState).1.screenshots.map
        recordFields
      = [recordFields sampleB, recordFields sampleA] :=
  (export_then_import_reverses sampleReadings sampleState emptyState false "notes.json"
    (exportData sampleState.screenshots) rfl (by decide) (by decide) rfl).2.1

/-! ## Distinct ids -/

theorem importLoop_ids (env : ImportReadings) (items : List Candidate) :
    ∀ (i : Nat) (scr : List Screenshot) (n : Nat),
      ∃ picks : List (Nat × Nat),
        (importLoop env i items scr n).1.map (fun s => s.id)
          = (picks.map (fun p => env.add (env.add (env.dateNow p.1) (env.random p.1)) p.2)).reverse
            ++ scr.map (fun s => s.id) ∧
        picks.Pairwise (fun a b => a.1 < b.1 ∧ a.2 < b.2) ∧
        ∀ p ∈ picks, i ≤ p.1 ∧ n ≤ p.2 := by
  induction items with
  | nil => intro i scr n; exact ⟨[], by simp [importLoop], List.Pairwise.nil, by simp⟩
  | cons item rest ih =>
    intro i scr n
    by_cases hex : scr.any (fun s => decide (some s.filename = item.filename)) = true
    · obtain ⟨picks, h1, h2, h3⟩ := ih (i + 1) scr n
      refine ⟨picks, ?_, h2, fun p hp => ⟨by have := (h3 p hp).1; omega, (h3 p hp).2⟩⟩
      simp only [importLoop, hex, if_true]
      exact h1
    · obtain ⟨picks, h1, h2, h3⟩ :=
        ih (i + 1) (newScreenshot env i n item :: scr) (n + 1)
      refine ⟨(i, n) :: picks, ?_, ?_, ?_⟩
      · simp only [importLoop, hex, Bool.false_eq_true, if_false]
        rw [h1]
        simp [newScreenshot]
      · rw [List.pairwise_cons]
        refine ⟨fun p hp => ?_, h2⟩
        have := h3 p hp
        constructor <;> simp only [] <;> omega
      · intro p hp
        rcases List.mem_cons.mp hp with hp | hp
        · subst hp; exact ⟨le_refl _, le_refl _⟩
        · have := h3 p hp
          constructor <;> omega

theorem mapSampleData_ids (env : ImportReadings) (data : List Candidate) :
    ∀ (index : Nat) (x : Rat), x ∈ (mapSampleData env index data).map (fun s => s.id) →
      ∃ j, index ≤ j ∧ x = env.dateNow j + j := by
  induction data with
  | nil => intro index x h; simp [mapSampleData] at h
  | cons item rest ih =>
    intro index x h
    simp only [mapSampleData, List.map_cons, List.mem_cons] at h
    rcases h with h | h
    · exact ⟨index, le_refl _, h⟩
    · obtain ⟨j, hj, hx⟩ := ih (index + 1) x h
      exact ⟨j, by omega, hx⟩

theorem mapSampleData_nodup (env : ImportReadings)
    (hclock : ∀ i j, i ≤ j → env.dateNow i ≤ env.dateNow j) (data : List Candidate) :
    ∀ index : Nat, ((mapSampleData env index data).map (fun s => s.id)).Nodup := by
  induction data with
  | nil => intro index; simp [mapSampleData]
  | cons item rest ih =>
    intro index
    simp only [mapSampleData, List.map_cons, List.nodup_cons]
    refine ⟨?_, ih (index + 1)⟩
    intro hmem
    obtain ⟨j, hj, hx⟩ := mapSampleData_ids env rest (index + 1) _ hmem
    have h1 : env.dateNow index ≤ env.dateNow j := hclock index j (by omega)
    have h2 : (index : Rat) < (j : Rat) := by exact_mod_cast hj
    linarith

/-- C15 (as stated) fails: two files picked in one batch and ingested at the same clock
reading with the same random draw get the same id. -/
theorem ingestions_share_id :
    (emptyState.screenshots.map (fun s => s.id)).Nodup ∧
    ¬ ((selectAndUploadImages (fun _ => sampleAddReadings) false
        ["/home/user/shot.png", "/home/user/other.png"] emptyState).screenshots.map
          (fun s => s.id)).Nodup := by
  have h : (selectAndUploadImages (fun _ => sampleAddReadings) false
      ["/home/user/shot.png", "/home/user/other.png"] emptyState).screenshots.map (fun s => s.id)
      = [sampleAddReadings.add sampleAddReadings.dateNow sampleAddReadings.random,
         sampleAddReadings.add sampleAddReadings.dateNow sampleAddReadings.random] := by
    rfl
  rw [h]
  exact ⟨List.nodup_nil, by simp⟩

/-- C15 (amended): starting from a collection with pairwise distinct ids,
`addScreenshotFromFile` yields pairwise distinct ids exactly when the id it
generates, the double-precision sum of the clock reading and the random draw, is
not yet in the collection; `importAll` yields pairwise distinct ids when no id
it can generate is in the collection and the ids it generates for different
entries differ; and `loadSampleData` yields pairwise distinct ids whenever the
clock does not go backwards while the sample records are built. -/
theorem ids_stay_distinct (st : State) (hst : (st.screenshots.map (fun s => s.id)).Nodup) :
    (∀ (env : AddReadings) (file : File) (st' : State),
      addScreenshotFromFile env file st = .ok st' →
      ((st'.screenshots.map (fun s => s.id)).Nodup ↔
        env.add env.dateNow env.random ∉ st.screenshots.map (fun s => s.id))) ∧
    (∀ (env : ImportReadings) (data : List Candidate),
      (∀ i k : Nat, env.add (env.add (env.dateNow i) (env.random i)) k
        ∉ st.screenshots.map (fun s => s.id)) →
      (∀ i k i' k' : Nat, i < i' → k < k' →
        env.add (env.add (env.dateNow i) (env.random i)) k
          ≠ env.add (env.add (env.dateNow i') (env.random i')) k') →
      ((importAll env data st).1.screenshots.map (fun s => s.id)).Nodup) ∧
    (∀ (env : ImportReadings) (data : List Candidate),
      (∀ i j, i ≤ j → env.dateNow i ≤ env.dateNow j) →
      ((loadSampleData env data st).screenshots.map (fun s => s.id)).Nodup) := by
  refine ⟨?_, ?_, ?_⟩
  · intro env file st' h
    cases hc : env.copyError with
    | some message =>
      rw [addScreenshotFromFile_error env file st message hc] at h
      exact Except.noConfusion h
    | none =>
      rw [addScreenshotFromFile_ok env file st hc] at h
      injection h with h
      subst h
      simp only [List.map_cons, List.nodup_cons, screenshotOf]
      exact ⟨fun h => h.1, fun h => ⟨h, hst⟩⟩
  · intro env data hnew hdiff
    have hloop : ∀ items : List Candidate,
        ((importLoop env 0 items st.screenshots 0).1.map (fun s => s.id)).Nodup := by
      intro items
      obtain ⟨picks, h1, h2, _⟩ := importLoop_ids env items 0 st.screenshots 0
      rw [h1, List.nodup_append]
      refine ⟨?_, hst, ?_⟩
      · rw [List.nodup_reverse]
        apply List.Pairwise.map _ _ h2
        intro a b hab
        exact hdiff a.1 a.2 b.1 b.2 hab.1 hab.2
      · intro x hx hx'
        rw [List.mem_reverse, List.mem_map] at hx
        obtain ⟨p, _, hp⟩ := hx
        exact hnew p.1 p.2 (hp ▸ hx')
    unfold importAll
    simp only []
    split
    · exact hst
    · split
      · exact hloop _
      · exact hloop _
  · intro env data hclock
    exact mapSampleData_nodup env hclock data 0

/-- Witness for C15 (amended): sample data loaded while the clock stands still get
pairwise distinct ids. -/
theorem ids_stay_distinct_witness :
    ((loadSampleData sampleReadings [entryWithKnownName, entryWithEmptyDate]
      sampleState).screenshots.map (fun s => s.id)).Nodup :=
  (ids_stay_distinct sampleState (by decide)).2.2 sampleReadings
    [entryWithKnownName, entryWithEmptyDate] (fun _ _ _ => le_refl _)

end ScreenshotNote
